import Mathlib

/-!
Packaging orchestration: pattern resolver, build queue and build deduplication.

A shallow embedding of `lib/plugins/package/lib/packageService.js` and
`lib/plugins/package/lib/buildQueue.js`.

Modelling conventions.

* JavaScript strings are Lean `String`s; the string operations the source uses
  (`charAt(0)`, `substring(1)`, `startsWith('!')`, `slice(1)`, template
  concatenation) are written on the character list `String.data`.
* A plain JavaScript object used as a dictionary (`filePathStates`) is an
  insertion-ordered association list with one entry per own property:
  assigning an existing key overwrites its value in place, assigning a new key
  appends it, and assigning the key `__proto__` reaches the setter inherited
  from `Object.prototype` and creates no property. The enumeration order of
  integer-like keys is not modelled, so the general theorems speak of
  membership in the returned list, not of its order.
* Library calls (`globby`, the matcher behind `micromatch`, `path.basename`)
  are parameters of the definitions that use them; a call that can throw or
  reject returns `Except`. `micromatch` rejects the empty pattern.
* Asynchronous code is a step function on an explicit state: one step is a
  call running up to its first `await`, or the settling of an awaited promise
  together with the continuation it resumes.
-/

namespace PackageService

/-! ## Pattern resolver (`resolveFilePathsFromPatterns`) -/

/-- JavaScript `p.startsWith('!')`, equivalently `p.charAt(0) === '!'`. -/
def startsWithBang (p : String) : Bool :=
  match p.data with
  | c :: _ => c == '!'
  | [] => false

/-- JavaScript `p.substring(1)` and `p.slice(1)`: the string without its first character. -/
def dropFirst (p : String) : String := ⟨p.data.drop 1⟩

/-- Body of `params.exclude.forEach` (lines 328-334): a pattern that does not
start with `!` is pushed with a `!` in front, a pattern that starts with `!`
is pushed without it. -/
def excludeToPattern (pattern : String) : String :=
  if !(startsWithBang pattern) then ⟨'!' :: pattern.data⟩ else dropFirst pattern

/-- The `patterns` array after both `forEach` loops (lines 323-340). -/
def buildPatterns (exclude «include» : List String) : List String :=
  exclude.map excludeToPattern ++ «include»

/-- The `.map` of line 357: on `win32` every backslash becomes a forward slash. -/
def toPosixSlashes (win32 : Bool) (p : String) : String :=
  if win32 then ⟨p.data.map (fun c => if c = Char.ofNat 92 then '/' else c)⟩ else p

/-- The object `filePathStates`: candidate path to inclusion state. -/
abbrev FileStates := List (String × Bool)

/-- The key `__proto__`. `Object.prototype` has an accessor of that name, so an
assignment to it on a plain object calls the inherited setter, which ignores a
boolean, and creates no own property. -/
def protoKey : String := "__proto__"

/-- Creation or overwrite of the own property `key` of the dictionary object. -/
def setOwn : FileStates → String → Bool → FileStates
  | [], key, v => [(key, v)]
  | (k, b) :: rest, key, v =>
    if k = key then (k, v) :: rest else (k, b) :: setOwn rest key v

/-- Assignment `states[key] = v` on the dictionary object (lines 354 and 364;
`Object.assign` assigns the same way): it writes the own property `key`,
except for the key `__proto__`, where it leaves the object as it is. -/
def setState (st : FileStates) (key : String) (v : Bool) : FileStates :=
  if key = protoKey then st else setOwn st key v

/-- The value of the own property `key`, as `Object.entries` lists it. -/
def getState : FileStates → String → Option Bool
  | [], _ => none
  | (k, b) :: rest, key => if k = key then some b else getState rest key

/-- Line 354: `allFilePaths.reduce((p, c) => Object.assign(p, { [c]: true }), {})`. -/
def initStates (allFilePaths : List String) : FileStates :=
  allFilePaths.foldl (fun p c => setState p c true) []

/-- The message of the `TypeError` the matcher throws for an empty glob. -/
def emptyPatternError : String := "Expected pattern to be a non-empty string"

/-- The call `micromatch(allFilePaths, [pattern], { dot: true })` with a single
pattern. The library throws a `TypeError` when the pattern is the empty
string; otherwise it compiles the pattern, which can throw as well, and returns
the members of the list that the compiled matcher accepts. Compilation
(`matcher pattern`: the predicate on paths, or the error thrown) is the
library's and is a parameter. -/
def micromatch (matcher : String → Except String (String → Bool))
    (allFilePaths : List String) (pattern : String) : Except String (List String) :=
  if pattern = "" then Except.error emptyPatternError
  else
    match matcher pattern with
    | Except.ok f => Except.ok (allFilePaths.filter f)
    | Except.error e => Except.error e

/-- Body of the `forEach` of lines 360-366 for one pattern `p`. -/
def applyPattern (matcher : String → Except String (String → Bool))
    (allFilePaths : List String) (states : FileStates) (p : String) :
    Except String FileStates :=
  let exclude := startsWithBang p
  let pattern := if exclude then dropFirst p else p
  match micromatch matcher allFilePaths pattern with
  | Except.ok keys => Except.ok (keys.foldl (fun s key => setState s key (!exclude)) states)
  | Except.error e => Except.error e

/-- The `forEach` of lines 360-366 over the patterns, in order; a throw ends it. -/
def applyPatterns (matcher : String → Except String (String → Bool))
    (allFilePaths : List String) : FileStates → List String → Except String FileStates
  | states, [] => Except.ok states
  | states, p :: ps =>
    match applyPattern matcher allFilePaths states p with
    | Except.ok states1 => applyPatterns matcher allFilePaths states1 ps
    | Except.error e => Except.error e

/-- The dictionary `filePathStates` after every pattern has been applied
(lines 354-366), or the error thrown on the way. -/
def filePathStates (win32 : Bool) (matcher : String → Except String (String → Bool))
    (allFilePaths : List String) (patterns : List String) : Except String FileStates :=
  applyPatterns matcher allFilePaths (initStates allFilePaths)
    (patterns.map (toPosixSlashes win32))

/-- The argument object `params` with its optional `include` and `exclude`. -/
structure Params where
  exclude : Option (List String)
  «include» : Option (List String)
deriving DecidableEq, Repr

deriving instance DecidableEq for Except

/-- The message of the error thrown on line 371. -/
def noFileMatches : String := "No file matches include / exclude patterns"

/-- The function `resolveFilePathsFromPatterns` (lines 322-373). `globby` is the
directory listing of the root path as a function of the glob list it is given,
or the error its promise is rejected with; `win32` is
`process.platform === 'win32'`. -/
def resolveFilePathsFromPatterns (win32 : Bool)
    (matcher : String → Except String (String → Bool))
    (globby : List String → Except String (List String)) (params : Params) :
    Except String (List String) :=
  let incl := params.«include».getD []
  let excl := params.exclude.getD []
  let patterns := buildPatterns excl incl
  match globby ("**" :: incl) with
  | Except.error e => Except.error e
  | Except.ok allFilePaths =>
    match filePathStates win32 matcher allFilePaths patterns with
    | Except.error e => Except.error e
    | Except.ok states =>
      let filePaths := (states.filter (fun r => r.2 == true)).map (fun r => r.1)
      if filePaths.length ≠ 0 then Except.ok filePaths else Except.error noFileMatches

/-- A small match predicate used to run the resolver on concrete trees: a
pattern matches a path when it equals the path, when it is `**`, or when it is
`dir/**` and the path lies under `dir/`. -/
def sampleMatch (pattern path : String) : Bool :=
  pattern == path || pattern == "**" ||
    (pattern.data.reverse.take 3 == ['*', '*', '/'] &&
      (pattern.data.take (pattern.data.length - 2)).isPrefixOf path.data)

/-- A stand-in for the library's compilation where a theorem is evaluated on a
concrete tree: every pattern compiles, to `sampleMatch`. -/
def sampleMatcher (pattern : String) : Except String (String → Bool) :=
  Except.ok (sampleMatch pattern)

/-- Whether `glob` matches `path`: the compiled matcher says so; a glob that
does not compile matches nothing. -/
def isMatchOf (matcher : String → Except String (String → Bool)) (glob path : String) :
    Bool :=
  match matcher glob with
  | Except.ok f => f path
  | Except.error _ => false

/-- Whether `micromatch` accepts `glob`: it is not empty and it compiles. -/
def accepts (matcher : String → Except String (String → Bool)) (glob : String) : Bool :=
  glob != "" &&
    match matcher glob with
    | Except.ok _ => true
    | Except.error _ => false

/-- Whether an entry of the ordered pattern list marks its matches as included
(line 361: `exclude = p.startsWith('!')`, state written is `!exclude`). -/
def marksInclude (p : String) : Bool := !(startsWithBang p)

/-- The glob an entry of the ordered pattern list is matched with (line 362). -/
def globOf (p : String) : String := if startsWithBang p then dropFirst p else p

/-- The ordered pattern list of the claim: every exclude (in the form the
source pushes it) first, then every include in its original order, with the
separator conversion of line 357 applied. -/
def orderedPatterns (win32 : Bool) (exclude «include» : List String) : List String :=
  (buildPatterns exclude «include»).map (toPosixSlashes win32)

/-- Verdict of the last pattern of `ordered` that matches `c`: included when
that pattern marks include, and included when no pattern matches. -/
def lastMatchVerdict (isMatch : String → String → Bool) (ordered : List String)
    (c : String) : Bool :=
  match ordered.reverse.find? (fun p => isMatch (globOf p) c) with
  | none => true
  | some p => marksInclude p

/-- The list returned on line 370 before the emptiness test. -/
def includedPaths (states : FileStates) : List String :=
  (states.filter (fun r => r.2 == true)).map (fun r => r.1)

/-- The dictionary after the body of the `forEach` for pattern `p`, when the
matcher accepts its glob. -/
def markMatches (isMatch : String → String → Bool) (allFilePaths : List String)
    (states : FileStates) (p : String) : FileStates :=
  (allFilePaths.filter (isMatch (globOf p))).foldl
    (fun s key => setState s key (marksInclude p)) states

/-- The matcher accepts the glob of every entry of the ordered pattern list. -/
def GlobsAccepted (matcher : String → Except String (String → Bool))
    (ordered : List String) : Prop :=
  ∀ p ∈ ordered, accepts matcher (globOf p) = true

/-! ## Exclude and include lists (`getExcludes`, `getIncludes`, `resolveFilePaths*`) -/

/-- The array `defaultExcludes` (lines 14-22). -/
def defaultExcludes : List String :=
  [".git/**", ".gitignore", ".DS_Store", "npm-debug.log", "yarn-*.log",
    ".serverless/**", ".serverless_plugins/**"]

/-- The `package` object of a function, a layer or the service. -/
structure PackageConfig where
  exclude : Option (List String)
  «include» : Option (List String)
  artifact : Option String
deriving DecidableEq, Repr

/-- A layer object as returned by `service.getLayer(name)`. -/
structure LayerObject where
  name : String
  path : String
  package : Option PackageConfig
deriving DecidableEq, Repr

/-- A function object as returned by `service.getFunction(name)`. -/
structure FunctionObject where
  name : String
  package : Option PackageConfig
deriving DecidableEq, Repr

/-- The parts of `this.serverless` that the exclude and include lists read. -/
structure Serverless where
  /-- Field `serverless.configurationPath`. -/
  configurationPath : Option String
  /-- Field `service.package.exclude`. -/
  packageExclude : Option (List String)
  /-- Field `service.package.include`. -/
  packageInclude : Option (List String)
  /-- Value `pluginManager.parsePluginsObject(service.plugins).localPath`. -/
  pluginsLocalPath : Option String
  /-- Value `serverlessConfigFile && serverlessConfigFile.useDotenv`. -/
  useDotenv : Bool
  /-- The layers of the service, in the order of `getAllLayers()`. -/
  layers : List LayerObject
  /-- The functions of the service, in the order of `getAllFunctions()`. -/
  functions : List FunctionObject
deriving Repr

/-- JavaScript truthiness of an optional string: defined and not empty. -/
def truthy : Option String → Bool
  | some s => s != ""
  | none => false

/-- Removal of duplicates keeping first occurrences, as lodash `uniq` does. -/
def uniq (l : List String) : List String :=
  l.foldl (fun acc x => if x ∈ acc then acc else acc ++ [x]) []

/-- Lodash `_.union(...arrays)`: the arrays flattened, duplicates removed. -/
def union (arrays : List (List String)) : List String :=
  uniq arrays.flatten

/-- Method `service.getAllLayers()`: the layer names. -/
def Serverless.getAllLayers (sls : Serverless) : List String :=
  sls.layers.map (fun l => l.name)

/-- Method `service.getLayer(name)`. -/
def Serverless.getLayer (sls : Serverless) (name : String) : Option LayerObject :=
  sls.layers.find? (fun l => l.name == name)

/-- Method `service.getFunction(name)`. -/
def Serverless.getFunction (sls : Serverless) (name : String) : Option FunctionObject :=
  sls.functions.find? (fun f => f.name == name)

/-- The template string of line 46 for one layer name; a lookup that finds no
layer reads `path` as `undefined`. -/
def layerGlob (sls : Serverless) (layer : String) : String :=
  (match sls.getLayer layer with
    | some l => l.path
    | none => "undefined") ++ "/**"

/-- Method `getIncludes(include)` (lines 24-27). -/
def getIncludes (sls : Serverless) («include» : Option (List String)) : List String :=
  union [sls.packageInclude.getD [], «include».getD []]

/-- Method `getExcludes(exclude, excludeLayers)` (lines 34-64); `basename` is
`path.basename`. -/
def getExcludes (basename : String → String) (sls : Serverless)
    (exclude : Option (List String)) (excludeLayers : Bool) : List String :=
  let configFilePath := sls.configurationPath
  let packageExcludes := sls.packageExclude.getD []
  let pluginsLocalPath := sls.pluginsLocalPath
  let localPathExcludes := if truthy pluginsLocalPath then [pluginsLocalPath.getD ""] else []
  let layerExcludes := if excludeLayers then sls.getAllLayers.map (layerGlob sls) else []
  let serverlessConfigFileExclude :=
    if truthy configFilePath then [basename (configFilePath.getD "")] else []
  let envFilesExclude := if sls.useDotenv then [".env*"] else []
  union [defaultExcludes, serverlessConfigFileExclude, localPathExcludes, packageExcludes,
    layerExcludes, envFilesExclude, exclude.getD []]

/-- The object built on lines 314-317 of `resolveFilePathsLayer` and handed to
`excludeDevDependencies`. -/
def layerParams (basename : String → String) (sls : Serverless) (layerName : String) :
    Params :=
  let layerPackageConfig := (sls.getLayer layerName).bind (fun l => l.package)
  { exclude := some (getExcludes basename sls (layerPackageConfig.bind (fun c => c.exclude)) false)
    «include» := some (getIncludes sls (layerPackageConfig.bind (fun c => c.«include»))) }

/-- The object built on lines 196-199 of `resolveFilePathsFunction`. -/
def functionParams (basename : String → String) (sls : Serverless) (functionName : String) :
    Params :=
  let funcPackageConfig := (sls.getFunction functionName).bind (fun f => f.package)
  { exclude := some (getExcludes basename sls (funcPackageConfig.bind (fun c => c.exclude)) true)
    «include» := some (getIncludes sls (funcPackageConfig.bind (fun c => c.«include»))) }

/-- The object built on lines 173-176 of `resolveFilePathsAll`. -/
def allParams (basename : String → String) (sls : Serverless) : Params :=
  { exclude := some (getExcludes basename sls (some []) true)
    «include» := some (getIncludes sls none) }

/-- Method `resolveFilePathsLayer(layerName)` (lines 309-320).
`excludeDevDependencies` is defined in another module and is a parameter;
`globbyAt prefix` lists the directory `path.join(servicePath, prefix)`. -/
def resolveFilePathsLayer (win32 : Bool)
    (matcher : String → Except String (String → Bool))
    (globbyAt : String → List String → Except String (List String))
    (basename : String → String)
    (excludeDevDependencies : Params → Params) (sls : Serverless) (layerName : String) :
    Except String (List String) :=
  resolveFilePathsFromPatterns win32 matcher
    (globbyAt (match sls.getLayer layerName with
      | some l => l.path
      | none => ""))
    (excludeDevDependencies (layerParams basename sls layerName))

/-- A service with two layers, used to run the layer resolution. -/
def twoLayerService : Serverless :=
  { configurationPath := some "/srv/serverless.yml"
    packageExclude := none
    packageInclude := none
    pluginsLocalPath := none
    useDotenv := false
    layers := [⟨"layerA", "layers/a", none⟩, ⟨"layerB", "layers/b", none⟩]
    functions := [⟨"hello", none⟩] }

/-- A stand-in for `path.basename` on the one path the sample service uses. -/
def sampleBasename (p : String) : String :=
  if p == "/srv/serverless.yml" then "serverless.yml" else p

/-! ## Sequential task queue (`buildQueue.js`)

The module state is `lastEntry`, `completionMonitor`, `completionResolve` and
the variable `currentEntry`, which the module assigns without declaring.
Entry objects live in a heap and refer to each other by index; the promises
created on line 20 are numbered in creation order. A task is identified by the
entry that holds it. -/

/-- A linked-list entry `{ next, fn }` (lines 7-10). -/
structure Entry where
  next : Option Nat
  fn : Nat
deriving DecidableEq, Repr

/-- Where one invocation of `sequentialExecute` stands. -/
inductive CallState where
  /-- Suspended on line 15 on the value `completionMonitor` had: a promise or `null`. -/
  | awaitingMonitor (monitor : Option Nat)
  /-- Suspended on line 24 on the promise returned by the `fn` of entry `e`. -/
  | awaitingTask (e : Nat)
  /-- The invocation has returned: its promise is fulfilled. -/
  | returned
  /-- The invocation has thrown: its promise is rejected. -/
  | rejected
deriving DecidableEq, Repr

/-- What the tasks report: task of entry `e` started, or finished with success or failure. -/
inductive TraceEvent where
  | started (e : Nat)
  | finished (e : Nat) (ok : Bool)
deriving DecidableEq, Repr

/-- The module state of `buildQueue.js` with the pending invocations. -/
structure QueueState where
  heap : List Entry
  lastEntry : Option Nat
  completionMonitor : Option Nat
  completionResolve : Option Nat
  currentEntry : Option Nat
  /-- For each promise created on line 20: whether it is resolved. -/
  promises : List Bool
  /-- The invocations of `sequentialExecute`, in call order. -/
  calls : List CallState
  trace : List TraceEvent
deriving DecidableEq, Repr

/-- The state when the module is loaded (lines 1-3). -/
def QueueState.init : QueueState :=
  { heap := [], lastEntry := none, completionMonitor := none, completionResolve := none,
    currentEntry := none, promises := [], calls := [], trace := [] }

/-- Assignment `heap[i].next = v`. -/
def setNext (heap : List Entry) (i : Nat) (v : Option Nat) : List Entry :=
  match heap[i]? with
  | some en => heap.set i { en with next := v }
  | none => heap

/-- Line 24 for invocation `c`: call `currentEntry.fn()` and suspend on its
promise. Reading `fn` of `null` throws. -/
def loopBody (st : QueueState) (c : Nat) : QueueState :=
  match st.currentEntry with
  | some e =>
    { st with trace := st.trace ++ [TraceEvent.started e],
              calls := st.calls.set c (CallState.awaitingTask e) }
  | none => { st with calls := st.calls.set c CallState.rejected }

/-- Lines 25-28 for invocation `c`, run when the promise awaited on line 24
is fulfilled: advance `currentEntry`, loop while it is not `null`, then
resolve the monitor and clear `completionMonitor`. -/
def afterTask (st : QueueState) (c : Nat) : QueueState :=
  match st.currentEntry with
  | none => { st with calls := st.calls.set c CallState.rejected }
  | some cur =>
    let next := (st.heap[cur]?).bind (fun en => en.next)
    let st1 := { st with currentEntry := next }
    match next with
    | some _ => loopBody st1 c
    | none =>
      match st1.completionResolve with
      | some m =>
        { st1 with promises := st1.promises.set m true, completionMonitor := none,
                   calls := st1.calls.set c CallState.returned }
      | none => { st1 with calls := st1.calls.set c CallState.rejected }

/-- The function `sequentialExecute(fn)` up to its first `await` (lines 6-24).
The new invocation is appended to `calls`; in the branch that starts a chain
its slot is filled in by `loopBody`, which runs the first iteration of the
`do` loop. -/
def sequentialExecute (st : QueueState) (fn : Nat) : QueueState :=
  let nextEntry := st.heap.length
  let heap := st.heap ++ [{ next := none, fn := fn }]
  match st.lastEntry with
  | some last =>
    { st with heap := setNext heap last (some nextEntry), lastEntry := some nextEntry,
              calls := st.calls ++ [CallState.awaitingMonitor st.completionMonitor] }
  | none =>
    let monitor := st.promises.length
    loopBody
      { st with heap := heap, promises := st.promises ++ [false],
                completionMonitor := some monitor, completionResolve := some monitor,
                lastEntry := some nextEntry, currentEntry := some nextEntry,
                calls := st.calls ++ [CallState.awaitingTask nextEntry] }
      st.calls.length

/-- The steps of the queue. -/
inductive QEvent where
  /-- A caller invokes `sequentialExecute(fn)`. -/
  | call (fn : Nat)
  /-- The task promise awaited by invocation `c` settles: fulfilled when `ok`,
  rejected otherwise; the invocation resumes. -/
  | settle (c : Nat) (ok : Bool)
  /-- Invocation `c`, suspended on line 15, resumes if what it awaits is
  `null` or a resolved promise, and returns. -/
  | resume (c : Nat)
deriving DecidableEq, Repr

/-- One step of the queue. A step that is not enabled leaves the state as it is. -/
def QueueState.step (st : QueueState) : QEvent → QueueState
  | QEvent.call fn => sequentialExecute st fn
  | QEvent.settle c ok =>
    match st.calls[c]? with
    | some (CallState.awaitingTask e) =>
      let st1 := { st with trace := st.trace ++ [TraceEvent.finished e ok] }
      if ok then afterTask st1 c
      else { st1 with calls := st1.calls.set c CallState.rejected }
    | _ => st
  | QEvent.resume c =>
    match st.calls[c]? with
    | some (CallState.awaitingMonitor none) =>
      { st with calls := st.calls.set c CallState.returned }
    | some (CallState.awaitingMonitor (some m)) =>
      if st.promises[m]? = some true then
        { st with calls := st.calls.set c CallState.returned }
      else st
    | _ => st

/-- The state after a sequence of steps. -/
def QueueState.run (st : QueueState) (evs : List QEvent) : QueueState :=
  evs.foldl QueueState.step st

/-- The entries whose task has started and not finished, after a trace. -/
def runningAfter (tr : List TraceEvent) : List Nat :=
  tr.foldl (fun r ev =>
    match ev with
    | TraceEvent.started e => r ++ [e]
    | TraceEvent.finished e _ => r.erase e) []

/-- The entries in the order their tasks started. -/
def startOrder (tr : List TraceEvent) : List Nat :=
  tr.filterMap (fun ev =>
    match ev with
    | TraceEvent.started e => some e
    | TraceEvent.finished _ _ => none)

/-- The tasks handed to `sequentialExecute`, in submission order. -/
def submittedFns (evs : List QEvent) : List Nat :=
  evs.filterMap (fun ev =>
    match ev with
    | QEvent.call fn => some fn
    | _ => none)

/-- The tasks in the order they started. -/
def startedFns (st : QueueState) : List Nat :=
  (startOrder st.trace).filterMap (fun e => st.heap[e]?.map (fun en => en.fn))

/-- Event number `j` of the run in which the tasks run one after the other,
each to successful completion: entry `j / 2` starts when `j` is even and
finishes when `j` is odd. -/
def seqEvent (j : Nat) : TraceEvent :=
  if j % 2 = 0 then TraceEvent.started (j / 2) else TraceEvent.finished (j / 2) true

/-- The first `m` events of the run in which the tasks of entries `0, 1, ...`
run one after the other, each to successful completion. -/
def sequentialTrace (m : Nat) : List TraceEvent :=
  (List.range m).map seqEvent

/-- Whether some invocation is draining a chain, that is suspended on line 24. -/
def QueueState.draining (st : QueueState) : Bool :=
  st.calls.any (fun c =>
    match c with
    | CallState.awaitingTask _ => true
    | _ => false)

/-- The entries of the heap form one chain in submission order and
`lastEntry` is the newest entry. -/
def ChainInv (st : QueueState) : Prop :=
  st.heap ≠ [] ∧ st.lastEntry = some (st.heap.length - 1) ∧
  ∀ i, i < st.heap.length →
    (st.heap[i]?.bind (fun en => en.next)) =
      if i + 1 < st.heap.length then some (i + 1) else none

/-- Invocation `0` is draining and awaits the task of entry `k`; every earlier
task has completed. -/
def DrainingInv (st : QueueState) (k : Nat) : Prop :=
  ChainInv st ∧ k < st.heap.length ∧ st.currentEntry = some k ∧
  st.calls[0]? = some (CallState.awaitingTask k) ∧
  (∀ (c e : Nat), st.calls[c]? = some (CallState.awaitingTask e) → c = 0) ∧
  st.trace = sequentialTrace (2 * k + 1) ∧ st.completionResolve = some 0

/-- No invocation is draining although `lastEntry` is set: nothing will call a task. -/
def NoDrainer (st : QueueState) : Prop :=
  st.lastEntry ≠ none ∧ ∀ (c e : Nat), st.calls[c]? ≠ some (CallState.awaitingTask e)

/-- The invariant of runs without a failing task. -/
def QueueInv (st : QueueState) : Prop :=
  st = QueueState.init ∨ (∃ k, DrainingInv st k) ∨
    (NoDrainer st ∧ ∃ k, k ≤ st.heap.length ∧ st.trace = sequentialTrace (2 * k))

/-! ## Build deduplication (`buildDotNetFunction`, `builtLibraries`)

The map `builtLibraries` sends a source path to the promise created on line
232; these promises are numbered in creation order and hold the artifact they
were resolved with. The closure handed to `sequentialExecute` on line 236 reads
the variables of the invocation of `buildDotNetFunction` that created it
(`srcPath`, `completionResolver`, `functionName`, `functionObject`), so the
queue identifies a task by the number of that invocation. -/

/-- Where one invocation of `buildDotNetFunction` stands. -/
inductive RequestStatus where
  /-- Suspended on line 227 on the promise found in `builtLibraries`. -/
  | awaitingBuild (p : Nat)
  /-- Suspended on line 236 on invocation `c` of `sequentialExecute`. -/
  | awaitingQueue (c : Nat)
  /-- The invocation has returned. -/
  | returned
  /-- The invocation has thrown. -/
  | rejected
deriving DecidableEq, Repr

/-- One invocation of `buildDotNetFunction` with its local variables. -/
structure Request where
  functionName : String
  /-- The loop variable `srcPath`. -/
  srcPath : String
  /-- The elements of `includes` that the loop has not reached. -/
  remaining : List String
  /-- The variable `completionResolver`: the promise its value resolves. -/
  completionResolver : Option Nat
  /-- The field `functionObject.package.artifact`. -/
  artifact : Option String
  status : RequestStatus
deriving DecidableEq, Repr

/-- The module state of `packageService.js` during builds. -/
structure BuildState where
  builtLibraries : List (String × Nat)
  /-- For each promise of line 232: the artifact it was resolved with, if any. -/
  promises : List (Option String)
  queue : QueueState
  requests : List Request
  /-- The source paths whose build was handed to `sequentialExecute` since the
  last `builtLibraries.clear()`, in order. -/
  submitted : List String
  /-- The source paths the compiler was invoked on (line 250), in order. -/
  compiled : List String
deriving DecidableEq, Repr

/-- The state when the module is loaded. -/
def BuildState.init : BuildState :=
  { builtLibraries := [], promises := [], queue := QueueState.init, requests := [],
    submitted := [], compiled := [] }

/-- JavaScript `srcPath.endsWith('.csproj')`. -/
def endsWithCsproj (s : String) : Bool :=
  (".csproj".data).isSuffixOf s.data

/-- Method `builtLibraries.get(key)`; `none` when `builtLibraries.has(key)` is false. -/
def mapGet : List (String × Nat) → String → Option Nat
  | [], _ => none
  | (k, v) :: rest, key => if k = key then some v else mapGet rest key

/-- Method `builtLibraries.set(key, v)`. -/
def mapSet : List (String × Nat) → String → Nat → List (String × Nat)
  | [], key, v => [(key, v)]
  | (k, w) :: rest, key, v =>
    if k = key then (k, v) :: rest else (k, w) :: mapSet rest key v

/-- Update of the variables of invocation `r`. -/
def updateRequest (reqs : List Request) (r : Nat) (f : Request → Request) : List Request :=
  match reqs[r]? with
  | some x => reqs.set r (f x)
  | none => reqs

/-- The source path the task of queue entry `e` reads when it starts. -/
def taskSrcPath (st : BuildState) (heap : List Entry) (e : Nat) : Option String :=
  ((heap[e]?).bind (fun en => st.requests[en.fn]?)).map (fun req => req.srcPath)

/-- Install a new queue state; every task the queue has started on the way
invokes the compiler on its source path (lines 241-250). -/
def advanceQueue (st : BuildState) (q : QueueState) : BuildState :=
  { st with
    queue := q,
    compiled := st.compiled ++
      ((startOrder q.trace).drop (startOrder st.queue.trace).length).filterMap
        (taskSrcPath st q.heap) }

/-- The `for` loop of lines 221-275 for invocation `r`, from the elements of
`includes` still to visit up to the next `await` or the end of the loop. -/
def buildLoop (st : BuildState) (r : Nat) : List String → BuildState
  | [] =>
    { st with requests := (updateRequest st.requests r
        (fun req => { req with remaining := [], status := RequestStatus.returned })) }
  | srcPath :: rest =>
    if endsWithCsproj srcPath then
      match mapGet st.builtLibraries srcPath with
      | some p =>
        { st with requests := (updateRequest st.requests r
            (fun req => { req with srcPath := srcPath, remaining := rest,
                                   status := RequestStatus.awaitingBuild p })) }
      | none =>
        let p := st.promises.length
        let c := st.queue.calls.length
        let st1 : BuildState :=
          { st with
            promises := st.promises ++ [none],
            builtLibraries := mapSet st.builtLibraries srcPath p,
            submitted := st.submitted ++ [srcPath],
            requests := (updateRequest st.requests r
              (fun req => { req with srcPath := srcPath, remaining := rest,
                                     completionResolver := some p,
                                     status := RequestStatus.awaitingQueue c })) }
        advanceQueue st1 (sequentialExecute st1.queue r)
    else
      buildLoop
        { st with requests := (updateRequest st.requests r
            (fun req => { req with srcPath := srcPath })) }
        r rest

/-- Resolution of promise `p` with `artifact`; a promise that is resolved stays as it is. -/
def resolvePromise (promises : List (Option String)) (p : Nat) (artifact : String) :
    List (Option String) :=
  match promises[p]? with
  | some none => promises.set p (some artifact)
  | _ => promises

/-- The steps of a build. -/
inductive BEvent where
  /-- Line 71 of `packageService`: `builtLibraries.clear()`. -/
  | clear
  /-- A call `buildDotNetFunction(functionObject)`; `incl` is
  `functionObject.package.include`, absent when the package or its include
  is not set. -/
  | build (functionName : String) (incl : Option (List String))
  /-- The build task awaited by queue invocation `c` settles: with `ok` the
  compiler and the archiver succeeded, otherwise one of them failed. -/
  | taskSettles (c : Nat) (ok : Bool)
  /-- Queue invocation `c`, suspended on the monitor, resumes. -/
  | queueResume (c : Nat)
  /-- Invocation `r` of `buildDotNetFunction` resumes from its `await` if what
  it awaits has settled. -/
  | requestResume (r : Nat)
deriving DecidableEq, Repr

/-- One step of a build. `zipFiles functionName` is the artifact path the
archiver returns for `functionName.zip`. A step that is not enabled leaves the
state as it is. -/
def BuildState.step (sls : Serverless) (zipFiles : String → String) (st : BuildState) :
    BEvent → BuildState
  | BEvent.clear => { st with builtLibraries := [], submitted := [] }
  | BEvent.build functionName incl =>
    let r := st.requests.length
    match incl with
    | none =>
      { st with requests := st.requests ++
          [{ functionName := functionName, srcPath := "", remaining := [],
             completionResolver := none, artifact := none,
             status := RequestStatus.rejected }] }
    | some inc =>
      buildLoop
        { st with requests := st.requests ++
            [{ functionName := functionName, srcPath := "", remaining := [],
               completionResolver := none, artifact := none,
               status := RequestStatus.returned }] }
        r (getIncludes sls (some inc))
  | BEvent.taskSettles c ok =>
    match st.queue.calls[c]? with
    | some (CallState.awaitingTask e) =>
      if ok then
        match (st.queue.heap[e]?).bind (fun en => (st.requests[en.fn]?).map (fun q => (en.fn, q))) with
        | some (r, req) =>
          let artifact := zipFiles req.functionName
          let st1 : BuildState :=
            { st with
              requests := (updateRequest st.requests r
                (fun q => { q with artifact := some artifact })),
              promises :=
                match req.completionResolver with
                | some p => resolvePromise st.promises p artifact
                | none => st.promises }
          advanceQueue st1 (st.queue.step (QEvent.settle c true))
        | none => st
      else advanceQueue st (st.queue.step (QEvent.settle c false))
    | _ => st
  | BEvent.queueResume c => advanceQueue st (st.queue.step (QEvent.resume c))
  | BEvent.requestResume r =>
    match st.requests[r]? with
    | some req =>
      match req.status with
      | RequestStatus.awaitingBuild p =>
        match st.promises[p]? with
        | some (some a) =>
          buildLoop
            { st with requests := (updateRequest st.requests r
                (fun q => { q with artifact := some a })) }
            r req.remaining
        | _ => st
      | RequestStatus.awaitingQueue c =>
        match st.queue.calls[c]? with
        | some CallState.returned => buildLoop st r req.remaining
        | some CallState.rejected =>
          { st with requests := (updateRequest st.requests r
              (fun q => { q with status := RequestStatus.rejected })) }
        | _ => st
      | _ => st
    | none => st

/-- The state after a sequence of build steps. -/
def BuildState.run (sls : Serverless) (zipFiles : String → String) (st : BuildState)
    (evs : List BEvent) : BuildState :=
  evs.foldl (BuildState.step sls zipFiles) st

/-- A service without package-level includes, used to run builds. -/
def plainService : Serverless :=
  { configurationPath := none, packageExclude := none, packageInclude := none,
    pluginsLocalPath := none, useDotenv := false, layers := [], functions := [] }

/-- A stand-in for the archiver: the artifact of `name` is `.serverless/name.zip`. -/
def sampleZip (functionName : String) : String :=
  ".serverless/" ++ functionName ++ ".zip"

/-- Invocation `r` of `buildDotNetFunction` is suspended on promise `p`, the
promise is unresolved and no invocation of the queue is draining. -/
def Stuck (st : BuildState) (r p : Nat) : Prop :=
  NoDrainer st.queue ∧ st.promises[p]? = some none ∧
  ∃ req, st.requests[r]? = some req ∧ req.status = RequestStatus.awaitingBuild p

/-- One packaging run over two functions that each build a project of their
own and then the project they share: both first builds run and drain the
queue, then function `a` submits the shared project and function `b` finds it
registered. -/
def sharedAfterOwnBuilds : List BEvent :=
  [BEvent.clear,
   BEvent.build "a" (some ["x.csproj", "shared.csproj"]),
   BEvent.build "b" (some ["y.csproj", "shared.csproj"]),
   BEvent.taskSettles 0 true, BEvent.taskSettles 0 true, BEvent.queueResume 1,
   BEvent.requestResume 0, BEvent.requestResume 1, BEvent.queueResume 2,
   BEvent.requestResume 0]

/-- One packaging run over three functions that build the same project on a
queue that has not been used: the build succeeds and every function resumes. -/
def sharedOnFreshQueue : List BEvent :=
  [BEvent.clear,
   BEvent.build "a" (some ["shared.csproj"]),
   BEvent.build "b" (some ["shared.csproj"]),
   BEvent.build "c" (some ["shared.csproj"]),
   BEvent.taskSettles 0 true,
   BEvent.requestResume 0, BEvent.requestResume 1, BEvent.requestResume 2]

/-- One packaging run over two functions that build the same project, whose
compilation fails; the function that started the build resumes. -/
def sharedBuildFails : List BEvent :=
  [BEvent.clear,
   BEvent.build "a" (some ["shared.csproj"]),
   BEvent.build "b" (some ["shared.csproj"]),
   BEvent.taskSettles 0 false,
   BEvent.requestResume 0]

/-- The invariant of the registry: no source path was submitted twice since the
last clear, and every submitted path is registered in `builtLibraries`. -/
def RegistryInv (st : BuildState) : Prop :=
  st.submitted.Nodup ∧ ∀ p ∈ st.submitted, mapGet st.builtLibraries p ≠ none

/-! ## Theorems: pattern resolver -/

theorem getState_setOwn (st : FileStates) (k : String) (v : Bool) (c : String) :
    getState (setOwn st k v) c = if c = k then some v else getState st c := by
  induction st with
  | nil =>
    by_cases h : c = k
    · simp [setOwn, getState, h]
    · have h2 : ¬ k = c := fun e => h e.symm
      simp [setOwn, getState, h, h2]
  | cons hd tl ih =>
    obtain ⟨k0, b0⟩ := hd
    by_cases h0 : k0 = k
    · subst h0
      by_cases h : c = k0
      · subst h; simp [setOwn, getState]
      · have h2 : ¬ k0 = c := fun e => h e.symm
        simp [setOwn, getState, h, h2]
    · by_cases h : c = k
      · subst h
        have h3 : ¬ k0 = c := h0
        simp [setOwn, getState, h0, ih]
      · by_cases h4 : k0 = c
        · simp [setOwn, getState, h0, h, h4]
        · simp [setOwn, getState, h0, h, h4, ih]

theorem getState_setState (st : FileStates) (k : String) (v : Bool) (c : String) :
    getState (setState st k v) c =
      if c = k ∧ k ≠ protoKey then some v else getState st c := by
  unfold setState
  by_cases hk : k = protoKey
  · simp [hk]
  · rw [if_neg hk, getState_setOwn]
    by_cases hc : c = k <;> simp [hc, hk]

theorem keys_setOwn (st : FileStates) (k : String) (v : Bool) :
    (setOwn st k v).map Prod.fst =
      if k ∈ st.map Prod.fst then st.map Prod.fst else st.map Prod.fst ++ [k] := by
  induction st with
  | nil => simp [setOwn]
  | cons hd tl ih =>
    obtain ⟨k0, b0⟩ := hd
    by_cases h0 : k0 = k
    · subst h0; simp [setOwn]
    · have h1 : ¬ k = k0 := fun e => h0 e.symm
      simp only [setOwn, h0, if_false, List.map_cons, ih, List.mem_cons, h1, false_or]
      split <;> simp

theorem nodup_keys_setState (st : FileStates) (k : String) (v : Bool)
    (h : (st.map Prod.fst).Nodup) : ((setState st k v).map Prod.fst).Nodup := by
  unfold setState
  split
  · exact h
  · rw [keys_setOwn]
    split
    · exact h
    · rename_i hk
      rw [List.nodup_append]
      refine ⟨h, by simp, ?_⟩
      intro a ha hb
      simp at hb
      subst hb
      exact hk ha

theorem getState_foldl_set (l : List String) (v : Bool) (st : FileStates) (c : String) :
    getState (l.foldl (fun s key => setState s key v) st) c =
      if c ∈ l ∧ c ≠ protoKey then some v else getState st c := by
  induction l generalizing st with
  | nil => simp
  | cons a t ih =>
    simp only [List.foldl_cons, ih, getState_setState, List.mem_cons]
    by_cases hp : c = protoKey
    · subst hp
      have : ¬ (protoKey = a ∧ a ≠ protoKey) := fun h => h.2 h.1.symm
      simp [this]
    · by_cases h1 : c ∈ t
      · simp [h1, hp]
      · by_cases h2 : c = a
        · subst h2; simp [hp]
        · simp [h1, h2]

theorem nodup_keys_foldl_set (l : List String) (v : Bool) (st : FileStates)
    (h : (st.map Prod.fst).Nodup) :
    ((l.foldl (fun s key => setState s key v) st).map Prod.fst).Nodup := by
  induction l generalizing st with
  | nil => simpa using h
  | cons a t ih => exact ih _ (nodup_keys_setState st a v h)

theorem getState_initStates (files : List String) (c : String) :
    getState (initStates files) c =
      if c ∈ files ∧ c ≠ protoKey then some true else none := by
  unfold initStates
  rw [getState_foldl_set]
  simp [getState]

theorem getState_markMatches (isMatch : String → String → Bool) (files : List String)
    (st : FileStates) (p c : String) :
    getState (markMatches isMatch files st p) c =
      if (c ∈ files ∧ isMatch (globOf p) c = true) ∧ c ≠ protoKey then some (marksInclude p)
      else getState st c := by
  unfold markMatches
  simp only [getState_foldl_set, List.mem_filter]

theorem nodup_keys_markMatches (isMatch : String → String → Bool) (files : List String)
    (st : FileStates) (p : String) (h : (st.map Prod.fst).Nodup) :
    ((markMatches isMatch files st p).map Prod.fst).Nodup :=
  nodup_keys_foldl_set _ _ st h

theorem accepts_iff (matcher : String → Except String (String → Bool)) (glob : String) :
    accepts matcher glob = true ↔ glob ≠ "" ∧ ∃ f, matcher glob = Except.ok f := by
  unfold accepts
  cases h : matcher glob with
  | ok f => simp
  | error e => simp

theorem accepts_of_isMatchOf (matcher : String → Except String (String → Bool))
    (glob c : String) (hne : glob ≠ "") (h : isMatchOf matcher glob c = true) :
    accepts matcher glob = true := by
  rw [accepts_iff]
  refine ⟨hne, ?_⟩
  unfold isMatchOf at h
  cases hm : matcher glob with
  | ok f => exact ⟨f, rfl⟩
  | error e => rw [hm] at h; cases h

/-- The body of the `forEach` when the matcher accepts the glob of the pattern. -/
theorem applyPattern_ok (matcher : String → Except String (String → Bool))
    (files : List String) (st : FileStates) (p : String)
    (h : accepts matcher (globOf p) = true) :
    applyPattern matcher files st p =
      Except.ok (markMatches (isMatchOf matcher) files st p) := by
  obtain ⟨hne, f, hf⟩ := (accepts_iff matcher (globOf p)).1 h
  have hfilter : files.filter (isMatchOf matcher (globOf p)) = files.filter f := by
    congr 1
    funext c
    simp [isMatchOf, hf]
  unfold applyPattern micromatch markMatches
  rw [hfilter]
  unfold globOf marksInclude at *
  simp only [hne, if_false, hf]

/-- The body of the `forEach` throws the `TypeError` when the glob is empty. -/
theorem applyPattern_error_empty (matcher : String → Except String (String → Bool))
    (files : List String) (st : FileStates) (p : String) (h : globOf p = "") :
    applyPattern matcher files st p = Except.error emptyPatternError := by
  unfold applyPattern micromatch
  unfold globOf at h
  simp only [h, if_true]

/-- The body of the `forEach` throws when the matcher does not accept the glob. -/
theorem applyPattern_error (matcher : String → Except String (String → Bool))
    (files : List String) (st : FileStates) (p : String)
    (h : accepts matcher (globOf p) ≠ true) :
    ∃ e, applyPattern matcher files st p = Except.error e := by
  by_cases hg : globOf p = ""
  · exact ⟨_, applyPattern_error_empty matcher files st p hg⟩
  · cases hm : matcher (globOf p) with
    | ok f => exact absurd ((accepts_iff matcher (globOf p)).2 ⟨hg, f, hm⟩) h
    | error e =>
      refine ⟨e, ?_⟩
      unfold applyPattern micromatch
      unfold globOf at hg hm
      simp only [hg, if_false, hm]

theorem applyPatterns_ok (matcher : String → Except String (String → Bool))
    (files : List String) (ps : List String) (st : FileStates)
    (h : GlobsAccepted matcher ps) :
    applyPatterns matcher files st ps =
      Except.ok (ps.foldl (markMatches (isMatchOf matcher) files) st) := by
  induction ps generalizing st with
  | nil => rfl
  | cons a t ih =>
    have ha : accepts matcher (globOf a) = true := h a (List.mem_cons_self _ _)
    simp only [applyPatterns, applyPattern_ok matcher files st a ha, List.foldl_cons]
    exact ih _ (fun p hp => h p (List.mem_cons_of_mem _ hp))

theorem applyPatterns_error (matcher : String → Except String (String → Bool))
    (files : List String) (ps : List String) (st : FileStates)
    (h : ¬ GlobsAccepted matcher ps) :
    ∃ e, applyPatterns matcher files st ps = Except.error e := by
  induction ps generalizing st with
  | nil => exact absurd (fun p hp => absurd hp (List.not_mem_nil p)) h
  | cons a t ih =>
    by_cases ha : accepts matcher (globOf a) = true
    · simp only [applyPatterns, applyPattern_ok matcher files st a ha]
      apply ih
      intro ht
      apply h
      intro p hp
      rcases List.mem_cons.mp hp with hp | hp
      · subst hp; exact ha
      · exact ht p hp
    · obtain ⟨e, he⟩ := applyPattern_error matcher files st a ha
      exact ⟨e, by simp only [applyPatterns, he]⟩

theorem applyPatterns_error_empty (matcher : String → Except String (String → Bool))
    (files : List String) (ps : List String) (st : FileStates)
    (hacc : ∀ p ∈ ps, globOf p ≠ "" → accepts matcher (globOf p) = true)
    (h : ∃ p ∈ ps, globOf p = "") :
    applyPatterns matcher files st ps = Except.error emptyPatternError := by
  induction ps generalizing st with
  | nil =>
    obtain ⟨p, hp, _⟩ := h
    exact absurd hp (List.not_mem_nil p)
  | cons a t ih =>
    by_cases ha : globOf a = ""
    · simp only [applyPatterns, applyPattern_error_empty matcher files st a ha]
    · have hok := hacc a (List.mem_cons_self _ _) ha
      simp only [applyPatterns, applyPattern_ok matcher files st a hok]
      apply ih _ (fun p hp => hacc p (List.mem_cons_of_mem _ hp))
      obtain ⟨p, hp, hg⟩ := h
      rcases List.mem_cons.mp hp with hp | hp
      · subst hp; exact absurd hg ha
      · exact ⟨p, hp, hg⟩

theorem getState_foldl_markMatches (isMatch : String → String → Bool)
    (files : List String) (ps : List String) (st : FileStates) (c : String)
    (hc : c ∈ files) (hp : c ≠ protoKey) :
    getState (ps.foldl (markMatches isMatch files) st) c =
      match ps.reverse.find? (fun p => isMatch (globOf p) c) with
      | none => getState st c
      | some p => some (marksInclude p) := by
  induction ps generalizing st with
  | nil => simp
  | cons a t ih =>
    simp only [List.foldl_cons, ih, List.reverse_cons, List.find?_append]
    cases hfind : t.reverse.find? (fun p => isMatch (globOf p) c) with
    | some q => simp
    | none =>
      simp only [Option.none_or, List.find?_cons, List.find?_nil, getState_markMatches]
      by_cases hm : isMatch (globOf a) c = true
      · simp [hm, hc, hp]
      · simp [hm]

theorem getState_foldl_markMatches_none (isMatch : String → String → Bool)
    (files : List String) (ps : List String) (st : FileStates) (c : String)
    (hc : ¬ (c ∈ files ∧ c ≠ protoKey)) (hst : getState st c = none) :
    getState (ps.foldl (markMatches isMatch files) st) c = none := by
  induction ps generalizing st with
  | nil => simpa using hst
  | cons a t ih =>
    rw [List.foldl_cons]
    apply ih
    rw [getState_markMatches]
    have : ¬ ((c ∈ files ∧ isMatch (globOf a) c = true) ∧ c ≠ protoKey) :=
      fun h => hc ⟨h.1.1, h.2⟩
    simp [this, hst]

theorem nodup_keys_foldl_markMatches (isMatch : String → String → Bool)
    (files : List String) (ps : List String) (st : FileStates)
    (h : (st.map Prod.fst).Nodup) :
    ((ps.foldl (markMatches isMatch files) st).map Prod.fst).Nodup := by
  induction ps generalizing st with
  | nil => simpa using h
  | cons a t ih => exact ih _ (nodup_keys_markMatches isMatch files st a h)

theorem mem_iff_getState (st : FileStates) (h : (st.map Prod.fst).Nodup)
    (c : String) (b : Bool) : (c, b) ∈ st ↔ getState st c = some b := by
  induction st with
  | nil => simp [getState]
  | cons hd tl ih =>
    obtain ⟨k0, b0⟩ := hd
    simp only [List.map_cons, List.nodup_cons] at h
    by_cases h0 : k0 = c
    · subst h0
      have hnot : (k0, b) ∉ tl := fun hm => h.1 (List.mem_map_of_mem Prod.fst hm)
      simp only [List.mem_cons, Prod.mk.injEq, true_and, hnot, or_false, getState,
        if_true, Option.some.injEq]
      exact eq_comm
    · have h1 : ¬ c = k0 := fun e => h0 e.symm
      simp [getState, h0, h1, ih h.2]

theorem mem_includedPaths (st : FileStates) (h : (st.map Prod.fst).Nodup) (c : String) :
    c ∈ includedPaths st ↔ getState st c = some true := by
  rw [← mem_iff_getState st h]
  unfold includedPaths
  simp only [List.mem_map, List.mem_filter, beq_iff_eq]
  constructor
  · rintro ⟨⟨k, b⟩, ⟨hm, hb⟩, hk⟩
    simp only at hb hk
    subst hb; subst hk; exact hm
  · intro hm
    exact ⟨(c, true), ⟨hm, rfl⟩, rfl⟩

theorem nodup_includedPaths (st : FileStates) (h : (st.map Prod.fst).Nodup) :
    (includedPaths st).Nodup := by
  unfold includedPaths
  exact List.Nodup.sublist (List.Sublist.map _ (List.filter_sublist _)) h

/-- When the matcher accepts every pattern, the dictionary is built, it holds
one entry per candidate other than `__proto__`, and the state of a candidate is
the verdict of the last pattern that matches it. -/
theorem filePathStates_ok (win32 : Bool) (matcher : String → Except String (String → Bool))
    (files patterns : List String)
    (h : GlobsAccepted matcher (patterns.map (toPosixSlashes win32))) :
    ∃ st, filePathStates win32 matcher files patterns = Except.ok st ∧
      (st.map Prod.fst).Nodup ∧
      ∀ c, getState st c =
        if c ∈ files ∧ c ≠ protoKey then
          some (lastMatchVerdict (isMatchOf matcher)
            (patterns.map (toPosixSlashes win32)) c)
        else none := by
  refine ⟨_, by unfold filePathStates; exact applyPatterns_ok _ _ _ _ h, ?_, fun c => ?_⟩
  · apply nodup_keys_foldl_markMatches
    unfold initStates
    apply nodup_keys_foldl_set
    simp
  · by_cases hc : c ∈ files ∧ c ≠ protoKey
    · rw [if_pos hc, getState_foldl_markMatches _ _ _ _ _ hc.1 hc.2, getState_initStates,
        if_pos hc]
      unfold lastMatchVerdict
      split <;> simp_all
    · rw [if_neg hc]
      apply getState_foldl_markMatches_none _ _ _ _ _ hc
      rw [getState_initStates, if_neg hc]

theorem resolve_eq (win32 : Bool) (matcher : String → Except String (String → Bool))
    (globby : List String → Except String (List String)) (params : Params)
    (files : List String) (st : FileStates)
    (hg : globby ("**" :: params.«include».getD []) = Except.ok files)
    (hst : filePathStates win32 matcher files
      (buildPatterns (params.exclude.getD []) (params.«include».getD [])) = Except.ok st) :
    resolveFilePathsFromPatterns win32 matcher globby params =
      if includedPaths st ≠ [] then Except.ok (includedPaths st)
      else Except.error noFileMatches := by
  unfold resolveFilePathsFromPatterns includedPaths
  simp only [hg, hst, ne_eq, List.length_eq_zero]

/-- When the matcher does not accept some pattern, the call fails. -/
theorem resolve_error_of_rejected (win32 : Bool)
    (matcher : String → Except String (String → Bool))
    (globby : List String → Except String (List String)) (params : Params)
    (files : List String)
    (hg : globby ("**" :: params.«include».getD []) = Except.ok files)
    (h : ¬ GlobsAccepted matcher
      (orderedPatterns win32 (params.exclude.getD []) (params.«include».getD []))) :
    ∃ e, resolveFilePathsFromPatterns win32 matcher globby params = Except.error e := by
  obtain ⟨e, he⟩ := applyPatterns_error matcher files _ (initStates files) h
  refine ⟨e, ?_⟩
  unfold resolveFilePathsFromPatterns filePathStates
  unfold orderedPatterns at he
  simp only [hg, he]

/-- When some glob is empty and the matcher accepts every other one, the call
fails with the `TypeError` for the empty pattern. -/
theorem resolve_error_of_empty_glob (win32 : Bool)
    (matcher : String → Except String (String → Bool))
    (globby : List String → Except String (List String)) (params : Params)
    (files : List String)
    (hg : globby ("**" :: params.«include».getD []) = Except.ok files)
    (hacc : ∀ p ∈ orderedPatterns win32 (params.exclude.getD []) (params.«include».getD []),
      globOf p ≠ "" → accepts matcher (globOf p) = true)
    (h : ∃ p ∈ orderedPatterns win32 (params.exclude.getD []) (params.«include».getD []),
      globOf p = "") :
    resolveFilePathsFromPatterns win32 matcher globby params =
      Except.error emptyPatternError := by
  have he := applyPatterns_error_empty matcher files _ (initStates files) hacc h
  unfold resolveFilePathsFromPatterns filePathStates
  unfold orderedPatterns at he
  simp only [hg, he]

theorem lastMatchVerdict_append (isMatch : String → String → Bool)
    (pre post : List String) (p c : String)
    (hpost : ∀ q ∈ post, isMatch (globOf q) c = false)
    (hp : isMatch (globOf p) c = true) :
    lastMatchVerdict isMatch (pre ++ p :: post) c = marksInclude p := by
  unfold lastMatchVerdict
  have hnone : post.reverse.find? (fun q => isMatch (globOf q) c) = none := by
    rw [List.find?_eq_none]
    intro q hq
    simp [hpost q (List.mem_reverse.mp hq)]
  simp [List.find?_append, hnone, hp]

theorem lastMatchVerdict_of_no_match (isMatch : String → String → Bool)
    (ordered : List String) (c : String)
    (h : ∀ q ∈ ordered, isMatch (globOf q) c = false) :
    lastMatchVerdict isMatch ordered c = true := by
  unfold lastMatchVerdict
  have hnone : ordered.reverse.find? (fun q => isMatch (globOf q) c) = none := by
    rw [List.find?_eq_none]
    intro q hq
    simp [h q (List.mem_reverse.mp hq)]
  simp [hnone]

/-- The resolver on inputs whose patterns the matcher accepts: the dictionary,
and the result in terms of it. -/
theorem resolve_of_globs (win32 : Bool) (matcher : String → Except String (String → Bool))
    (globby : List String → Except String (List String)) (params : Params)
    (files : List String)
    (hg : globby ("**" :: params.«include».getD []) = Except.ok files)
    (h : GlobsAccepted matcher
      (orderedPatterns win32 (params.exclude.getD []) (params.«include».getD []))) :
    ∃ st, filePathStates win32 matcher files
        (buildPatterns (params.exclude.getD []) (params.«include».getD [])) = Except.ok st ∧
      (∀ c, getState st c =
        if c ∈ files ∧ c ≠ protoKey then
          some (lastMatchVerdict (isMatchOf matcher)
            (orderedPatterns win32 (params.exclude.getD []) (params.«include».getD [])) c)
        else none) ∧
      (∀ c, c ∈ includedPaths st ↔ getState st c = some true) ∧
      (includedPaths st).Nodup ∧
      resolveFilePathsFromPatterns win32 matcher globby params =
        if includedPaths st ≠ [] then Except.ok (includedPaths st)
        else Except.error noFileMatches := by
  obtain ⟨st, hst, hnd, hget⟩ := filePathStates_ok win32 matcher files _ h
  exact ⟨st, hst, hget, fun c => mem_includedPaths st hnd c, nodup_includedPaths st hnd,
    resolve_eq win32 matcher globby params files st hg hst⟩

theorem mem_resolve_iff (win32 : Bool) (matcher : String → Except String (String → Bool))
    (globby : List String → Except String (List String)) (params : Params)
    (files : List String)
    (hg : globby ("**" :: params.«include».getD []) = Except.ok files)
    (h : GlobsAccepted matcher
      (orderedPatterns win32 (params.exclude.getD []) (params.«include».getD [])))
    (l : List String)
    (hl : resolveFilePathsFromPatterns win32 matcher globby params = Except.ok l)
    (c : String) :
    c ∈ l ↔ (c ∈ files ∧ c ≠ protoKey) ∧
      lastMatchVerdict (isMatchOf matcher)
        (orderedPatterns win32 (params.exclude.getD []) (params.«include».getD [])) c
        = true := by
  obtain ⟨st, _, hget, hmem, _, hres⟩ := resolve_of_globs win32 matcher globby params files hg h
  rw [hres] at hl
  split at hl
  · injection hl with hl
    subst hl
    rw [hmem, hget]
    by_cases hc : c ∈ files ∧ c ≠ protoKey <;> simp [hc]
  · cases hl

theorem resolve_ok_of_included (win32 : Bool) (matcher : String → Except String (String → Bool))
    (globby : List String → Except String (List String)) (params : Params)
    (files : List String)
    (hg : globby ("**" :: params.«include».getD []) = Except.ok files)
    (h : GlobsAccepted matcher
      (orderedPatterns win32 (params.exclude.getD []) (params.«include».getD [])))
    (c : String) (hc : c ∈ files) (hp : c ≠ protoKey)
    (hv : lastMatchVerdict (isMatchOf matcher)
        (orderedPatterns win32 (params.exclude.getD []) (params.«include».getD [])) c
        = true) :
    ∃ l, resolveFilePathsFromPatterns win32 matcher globby params = Except.ok l := by
  obtain ⟨st, _, hget, hmem, _, hres⟩ := resolve_of_globs win32 matcher globby params files hg h
  have hin : c ∈ includedPaths st := by
    rw [hmem, hget, if_pos ⟨hc, hp⟩, hv]
  exact ⟨_, by rw [hres, if_pos (List.ne_nil_of_mem hin)]⟩

/-! ### Claims on the pattern resolver -/

/-- C1, as stated, fails on two inputs. With exclude `""` over the tree `a.txt`
no pattern matches `a.txt`, so the claim puts it in the returned list, but the
matcher rejects the empty glob and the call fails with its `TypeError`. Over
the tree `__proto__`, `a.txt` with no patterns, no pattern matches `__proto__`,
yet the returned list is `a.txt` alone. -/
theorem resolve_last_match_wins_counterexample :
    (lastMatchVerdict (isMatchOf sampleMatcher) (orderedPatterns false [""] []) "a.txt" = true ∧
      resolveFilePathsFromPatterns false sampleMatcher (fun _ => Except.ok ["a.txt"])
        ⟨some [""], none⟩ = Except.error emptyPatternError) ∧
    (lastMatchVerdict (isMatchOf sampleMatcher) (orderedPatterns false [] []) "__proto__" = true ∧
      resolveFilePathsFromPatterns false sampleMatcher
        (fun _ => Except.ok ["__proto__", "a.txt"]) ⟨none, none⟩ = Except.ok ["a.txt"]) := by
  decide

/-- C1 amended: when the listing succeeds and the matcher accepts the glob of
every pattern of the ordered list (excludes first, then includes in their
order), which requires every glob to be non-empty, a candidate path other than
`__proto__` is returned exactly when the last pattern matching it marks
include, or when no pattern matches it; a later matching pattern overwrites the
verdict of every earlier one. When the matcher rejects a pattern the call
fails, and it fails with the matcher's `TypeError` for the empty pattern when a
glob is empty and the others are accepted. Over the tree `a/keep.txt`,
`a/drop.txt`: exclude `a/**` with include `a/keep.txt` returns exactly
`a/keep.txt`, exclude `a/keep.txt` with include `a/**` returns both. -/
theorem resolve_last_match_wins :
    (∀ (win32 : Bool) (matcher : String → Except String (String → Bool))
        (globby : List String → Except String (List String)) (params : Params)
        (files : List String),
      globby ("**" :: params.«include».getD []) = Except.ok files →
      GlobsAccepted matcher
        (orderedPatterns win32 (params.exclude.getD []) (params.«include».getD [])) →
      (∃ st, filePathStates win32 matcher files
            (buildPatterns (params.exclude.getD []) (params.«include».getD [])) =
            Except.ok st ∧
          ∀ c, c ≠ protoKey → getState st c =
            if c ∈ files then
              some (lastMatchVerdict (isMatchOf matcher)
                (orderedPatterns win32 (params.exclude.getD []) (params.«include».getD [])) c)
            else none) ∧
      (∀ l, resolveFilePathsFromPatterns win32 matcher globby params = Except.ok l →
        ∀ c, c ≠ protoKey → (c ∈ l ↔ c ∈ files ∧
          lastMatchVerdict (isMatchOf matcher)
            (orderedPatterns win32 (params.exclude.getD []) (params.«include».getD [])) c
            = true)) ∧
      ((∃ c, c ∈ files ∧ c ≠ protoKey ∧
          lastMatchVerdict (isMatchOf matcher)
            (orderedPatterns win32 (params.exclude.getD []) (params.«include».getD [])) c
            = true) →
        ∃ l, resolveFilePathsFromPatterns win32 matcher globby params = Except.ok l)) ∧
    (∀ (win32 : Bool) (matcher : String → Except String (String → Bool))
        (globby : List String → Except String (List String)) (params : Params)
        (files : List String),
      globby ("**" :: params.«include».getD []) = Except.ok files →
      (¬ GlobsAccepted matcher
          (orderedPatterns win32 (params.exclude.getD []) (params.«include».getD [])) →
        ∃ e, resolveFilePathsFromPatterns win32 matcher globby params = Except.error e) ∧
      ((∀ p ∈ orderedPatterns win32 (params.exclude.getD []) (params.«include».getD []),
          globOf p ≠ "" → accepts matcher (globOf p) = true) →
        (∃ p ∈ orderedPatterns win32 (params.exclude.getD []) (params.«include».getD []),
          globOf p = "") →
        resolveFilePathsFromPatterns win32 matcher globby params =
          Except.error emptyPatternError)) ∧
    (∀ (isMatch : String → String → Bool) (pre post : List String) (p c : String),
      (∀ q ∈ post, isMatch (globOf q) c = false) → isMatch (globOf p) c = true →
        lastMatchVerdict isMatch (pre ++ p :: post) c = marksInclude p) ∧
    (∀ (isMatch : String → String → Bool) (ordered : List String) (c : String),
      (∀ q ∈ ordered, isMatch (globOf q) c = false) →
        lastMatchVerdict isMatch ordered c = true) ∧
    (∀ (win32 : Bool) (matcher : String → Except String (String → Bool))
        (globby : List String → Except String (List String)) (files : List String),
      globby ["**", "a/keep.txt"] = Except.ok files →
      (∀ c, c ∈ files ↔ c = "a/keep.txt" ∨ c = "a/drop.txt") →
      isMatchOf matcher "a/**" "a/keep.txt" = true → isMatchOf matcher "a/**" "a/drop.txt" = true →
      isMatchOf matcher "a/keep.txt" "a/keep.txt" = true → isMatchOf matcher "a/keep.txt" "a/drop.txt" = false →
      ∃ l, resolveFilePathsFromPatterns win32 matcher globby
            ⟨some ["a/**"], some ["a/keep.txt"]⟩ = Except.ok l ∧
          ∀ c, c ∈ l ↔ c = "a/keep.txt") ∧
    (∀ (win32 : Bool) (matcher : String → Except String (String → Bool))
        (globby : List String → Except String (List String)) (files : List String),
      globby ["**", "a/**"] = Except.ok files →
      (∀ c, c ∈ files ↔ c = "a/keep.txt" ∨ c = "a/drop.txt") →
      isMatchOf matcher "a/**" "a/keep.txt" = true → isMatchOf matcher "a/**" "a/drop.txt" = true →
      isMatchOf matcher "a/keep.txt" "a/keep.txt" = true → isMatchOf matcher "a/keep.txt" "a/drop.txt" = false →
      ∃ l, resolveFilePathsFromPatterns win32 matcher globby
            ⟨some ["a/keep.txt"], some ["a/**"]⟩ = Except.ok l ∧
          ∀ c, c ∈ l ↔ c = "a/keep.txt" ∨ c = "a/drop.txt") := by
  have hkp : ("a/keep.txt" : String) ≠ protoKey := by decide
  have hdp : ("a/drop.txt" : String) ≠ protoKey := by decide
  refine ⟨?_, ?_, ?_, ?_, ?_, ?_⟩
  · intro win32 matcher globby params files hg hne
    refine ⟨?_, fun l hl c hc => ?_, ?_⟩
    · obtain ⟨st, hst, hget, _⟩ := resolve_of_globs win32 matcher globby params files hg hne
      refine ⟨st, hst, fun c hc => ?_⟩
      rw [hget]
      by_cases hf : c ∈ files <;> simp [hf, hc]
    · rw [mem_resolve_iff win32 matcher globby params files hg hne l hl c]
      constructor
      · rintro ⟨⟨h1, _⟩, h2⟩; exact ⟨h1, h2⟩
      · rintro ⟨h1, h2⟩; exact ⟨⟨h1, hc⟩, h2⟩
    · rintro ⟨c, hc, hp, hv⟩
      exact resolve_ok_of_included win32 matcher globby params files hg hne c hc hp hv
  · intro win32 matcher globby params files hg
    exact ⟨fun hne => resolve_error_of_rejected win32 matcher globby params files hg hne,
      fun hacc he => resolve_error_of_empty_glob win32 matcher globby params files hg hacc he⟩
  · intro isMatch pre post p c hpost hp
    exact lastMatchVerdict_append isMatch pre post p c hpost hp
  · intro isMatch ordered c h
    exact lastMatchVerdict_of_no_match isMatch ordered c h
  · intro win32 matcher globby files hg hfiles h1 h2 h3 h4
    have hord : orderedPatterns win32 ["a/**"] ["a/keep.txt"] = ["!a/**", "a/keep.txt"] := by
      cases win32 <;> decide
    have hne : GlobsAccepted matcher (orderedPatterns win32
        ((⟨some ["a/**"], some ["a/keep.txt"]⟩ : Params).exclude.getD [])
        ((⟨some ["a/**"], some ["a/keep.txt"]⟩ : Params).«include».getD [])) := by
      simp only [Option.getD_some, hord]
      intro p hp
      simp only [List.mem_cons, List.mem_singleton, List.not_mem_nil, or_false] at hp
      rcases hp with hp | hp <;> subst hp
      · rw [show globOf "!a/**" = "a/**" by decide]
        exact accepts_of_isMatchOf matcher _ _ (by decide) h1
      · rw [show globOf "a/keep.txt" = "a/keep.txt" by decide]
        exact accepts_of_isMatchOf matcher _ _ (by decide) h3
    have hkeep : lastMatchVerdict (isMatchOf matcher) ["!a/**", "a/keep.txt"] "a/keep.txt" = true := by
      have e1 : globOf "a/keep.txt" = "a/keep.txt" := by decide
      simp [lastMatchVerdict, e1, h3]; decide
    have hdrop : lastMatchVerdict (isMatchOf matcher) ["!a/**", "a/keep.txt"] "a/drop.txt" = false := by
      have e1 : globOf "a/keep.txt" = "a/keep.txt" := by decide
      have e2 : globOf "!a/**" = "a/**" := by decide
      simp [lastMatchVerdict, e1, e2, h4, h2]; decide
    obtain ⟨l, hl⟩ := resolve_ok_of_included win32 matcher globby
      ⟨some ["a/**"], some ["a/keep.txt"]⟩ files hg hne "a/keep.txt"
      ((hfiles _).2 (Or.inl rfl)) hkp (by simpa [hord] using hkeep)
    refine ⟨l, hl, fun c => ?_⟩
    rw [mem_resolve_iff win32 matcher globby ⟨some ["a/**"], some ["a/keep.txt"]⟩ files hg hne
      l hl c]
    simp only [Option.getD_some, hord, hfiles]
    constructor
    · rintro ⟨⟨hc | hc, _⟩, hv⟩
      · exact hc
      · subst hc; rw [hdrop] at hv; cases hv
    · intro hc; subst hc; exact ⟨⟨Or.inl rfl, hkp⟩, hkeep⟩
  · intro win32 matcher globby files hg hfiles h1 h2 h3 h4
    have hord : orderedPatterns win32 ["a/keep.txt"] ["a/**"] = ["!a/keep.txt", "a/**"] := by
      cases win32 <;> decide
    have hne : GlobsAccepted matcher (orderedPatterns win32
        ((⟨some ["a/keep.txt"], some ["a/**"]⟩ : Params).exclude.getD [])
        ((⟨some ["a/keep.txt"], some ["a/**"]⟩ : Params).«include».getD [])) := by
      simp only [Option.getD_some, hord]
      intro p hp
      simp only [List.mem_cons, List.mem_singleton, List.not_mem_nil, or_false] at hp
      rcases hp with hp | hp <;> subst hp
      · rw [show globOf "!a/keep.txt" = "a/keep.txt" by decide]
        exact accepts_of_isMatchOf matcher _ _ (by decide) h3
      · rw [show globOf "a/**" = "a/**" by decide]
        exact accepts_of_isMatchOf matcher _ _ (by decide) h1
    have e1 : globOf "a/**" = "a/**" := by decide
    have hkeep : lastMatchVerdict (isMatchOf matcher) ["!a/keep.txt", "a/**"] "a/keep.txt" = true := by
      simp [lastMatchVerdict, e1, h1]; decide
    have hdrop : lastMatchVerdict (isMatchOf matcher) ["!a/keep.txt", "a/**"] "a/drop.txt" = true := by
      simp [lastMatchVerdict, e1, h2]; decide
    obtain ⟨l, hl⟩ := resolve_ok_of_included win32 matcher globby
      ⟨some ["a/keep.txt"], some ["a/**"]⟩ files hg hne "a/keep.txt"
      ((hfiles _).2 (Or.inl rfl)) hkp (by simpa [hord] using hkeep)
    refine ⟨l, hl, fun c => ?_⟩
    rw [mem_resolve_iff win32 matcher globby ⟨some ["a/keep.txt"], some ["a/**"]⟩ files hg hne
      l hl c]
    simp only [Option.getD_some, hord, hfiles]
    constructor
    · rintro ⟨⟨hc, _⟩, _⟩; exact hc
    · rintro (hc | hc)
      · subst hc; exact ⟨⟨Or.inl rfl, hkp⟩, hkeep⟩
      · subst hc; exact ⟨⟨Or.inr rfl, hdp⟩, hdrop⟩

/-- Run of the amended C1 on the sample matcher: both trees of the claim,
evaluated, and an empty exclude pattern. -/
theorem resolve_last_match_wins_witness :
    resolveFilePathsFromPatterns false sampleMatcher
        (fun _ => Except.ok ["a/keep.txt", "a/drop.txt"])
        ⟨some ["a/**"], some ["a/keep.txt"]⟩ = Except.ok ["a/keep.txt"] ∧
    resolveFilePathsFromPatterns false sampleMatcher
        (fun _ => Except.ok ["a/keep.txt", "a/drop.txt"])
        ⟨some ["a/keep.txt"], some ["a/**"]⟩ = Except.ok ["a/keep.txt", "a/drop.txt"] ∧
    (∃ l, resolveFilePathsFromPatterns false sampleMatcher
          (fun _ => Except.ok ["a/keep.txt", "a/drop.txt"])
          ⟨some ["a/**"], some ["a/keep.txt"]⟩ = Except.ok l ∧
        ∀ c, c ∈ l ↔ c = "a/keep.txt") ∧
    resolveFilePathsFromPatterns false sampleMatcher (fun _ => Except.ok ["a.txt"])
        ⟨some ["!"], none⟩ = Except.error emptyPatternError :=
  ⟨by decide, by decide,
    resolve_last_match_wins.2.2.2.2.1 false sampleMatcher
      (fun _ => Except.ok ["a/keep.txt", "a/drop.txt"]) ["a/keep.txt", "a/drop.txt"] rfl
      (by intro c; simp) (by decide) (by decide) (by decide) (by decide),
    (resolve_last_match_wins.2.1 false sampleMatcher (fun _ => Except.ok ["a.txt"])
      ⟨some ["!"], none⟩ ["a.txt"] rfl).2 (by decide) (by decide)⟩

/-- C2, as stated, fails: with exclude `""` (or `"!"`) over the tree `a.txt`
the matcher rejects the empty glob, so the call neither returns a list nor
fails with the no-match error: it fails with the matcher's `TypeError`, and no
final dictionary exists. -/
theorem resolve_never_empty_counterexample :
    resolveFilePathsFromPatterns false sampleMatcher (fun _ => Except.ok ["a.txt"])
        ⟨some [""], none⟩ = Except.error emptyPatternError ∧
    resolveFilePathsFromPatterns false sampleMatcher (fun _ => Except.ok ["a.txt"])
        ⟨some ["!"], none⟩ = Except.error emptyPatternError ∧
    filePathStates false sampleMatcher ["a.txt"] (buildPatterns [""] []) =
        Except.error emptyPatternError ∧
    emptyPatternError ≠ noFileMatches := by
  decide

/-- C2 amended: `resolveFilePathsFromPatterns` never returns an empty list.
When the listing succeeds and the matcher accepts the glob of every pattern,
which requires every glob to be non-empty, it fails with the
`No file matches include / exclude patterns` error if and only if no candidate
has final state `true`, that is its only error, and otherwise it returns the
non-empty list of exactly the candidates whose final state is `true`. When the
matcher rejects a pattern the call fails, and it fails with the matcher's
`TypeError` for the empty pattern when a glob is empty and the others are
accepted. -/
theorem resolve_never_empty (win32 : Bool)
    (matcher : String → Except String (String → Bool))
    (globby : List String → Except String (List String)) (params : Params) :
    resolveFilePathsFromPatterns win32 matcher globby params ≠ Except.ok [] ∧
    (∀ files, globby ("**" :: params.«include».getD []) = Except.ok files →
      GlobsAccepted matcher
        (orderedPatterns win32 (params.exclude.getD []) (params.«include».getD [])) →
      ∃ st, filePathStates win32 matcher files
          (buildPatterns (params.exclude.getD []) (params.«include».getD [])) =
          Except.ok st ∧
        (resolveFilePathsFromPatterns win32 matcher globby params =
            Except.error noFileMatches ↔
          ∀ c ∈ files, getState st c ≠ some true) ∧
        (∀ e, resolveFilePathsFromPatterns win32 matcher globby params = Except.error e →
          e = noFileMatches) ∧
        ((∃ c ∈ files, getState st c = some true) →
          ∃ l, resolveFilePathsFromPatterns win32 matcher globby params = Except.ok l ∧
            l ≠ [] ∧ l.Nodup ∧
            ∀ c, c ∈ l ↔ c ∈ files ∧ getState st c = some true)) ∧
    (∀ files, globby ("**" :: params.«include».getD []) = Except.ok files →
      ¬ GlobsAccepted matcher
        (orderedPatterns win32 (params.exclude.getD []) (params.«include».getD [])) →
      ∃ e, resolveFilePathsFromPatterns win32 matcher globby params = Except.error e) ∧
    (∀ files, globby ("**" :: params.«include».getD []) = Except.ok files →
      (∀ p ∈ orderedPatterns win32 (params.exclude.getD []) (params.«include».getD []),
        globOf p ≠ "" → accepts matcher (globOf p) = true) →
      (∃ p ∈ orderedPatterns win32 (params.exclude.getD []) (params.«include».getD []),
        globOf p = "") →
      resolveFilePathsFromPatterns win32 matcher globby params =
        Except.error emptyPatternError) := by
  refine ⟨?_, ?_, ?_, ?_⟩
  · unfold resolveFilePathsFromPatterns
    intro h
    simp only at h
    split at h
    · cases h
    · split at h
      · cases h
      · split at h
        · rename_i hne
          injection h with h
          rw [h] at hne
          exact hne rfl
        · cases h
  · intro files hg hne
    obtain ⟨st, hst, hget, hmem, hnd, hres⟩ :=
      resolve_of_globs win32 matcher globby params files hg hne
    have hfile : ∀ c, getState st c = some true → c ∈ files := by
      intro c hc
      rw [hget] at hc
      by_contra hn
      have : ¬ (c ∈ files ∧ c ≠ protoKey) := fun h => hn h.1
      rw [if_neg this] at hc
      cases hc
    refine ⟨st, hst, ?_, ?_, ?_⟩
    · rw [hres]
      constructor
      · intro h c _ hc
        split at h
        · cases h
        · rename_i hnil
          exact hnil (List.ne_nil_of_mem ((hmem c).2 hc))
      · intro h
        rw [if_neg]
        intro hnil
        obtain ⟨c, hc⟩ := List.exists_mem_of_ne_nil _ hnil
        have hs := (hmem c).1 hc
        exact h c (hfile c hs) hs
    · intro e he
      rw [hres] at he
      split at he
      · cases he
      · injection he with he; exact he.symm
    · rintro ⟨c, _, hs⟩
      have hin : c ∈ includedPaths st := (hmem c).2 hs
      refine ⟨includedPaths st, by rw [hres, if_pos (List.ne_nil_of_mem hin)],
        List.ne_nil_of_mem hin, hnd, fun d => ?_⟩
      rw [hmem]
      exact ⟨fun h => ⟨hfile d h, h⟩, fun h => h.2⟩
  · intro files hg hne
    exact resolve_error_of_rejected win32 matcher globby params files hg hne
  · intro files hg hacc he
    exact resolve_error_of_empty_glob win32 matcher globby params files hg hacc he

/-- Instance of the amended C2: exclude `a/**` over a two-file tree, where the
candidate `handler.js` has final state `true`. -/
theorem resolve_never_empty_witness :
    resolveFilePathsFromPatterns false sampleMatcher
        (fun _ => Except.ok ["a/drop.txt", "handler.js"]) ⟨some ["a/**"], none⟩ ≠
      Except.ok [] ∧
    resolveFilePathsFromPatterns false sampleMatcher
        (fun _ => Except.ok ["a/drop.txt", "handler.js"]) ⟨some ["a/**"], none⟩ =
      Except.ok ["handler.js"] ∧
    resolveFilePathsFromPatterns false sampleMatcher
        (fun _ => Except.ok ["a/drop.txt"]) ⟨some ["a/**"], none⟩ =
      Except.error noFileMatches :=
  ⟨(resolve_never_empty false sampleMatcher
      (fun _ => Except.ok ["a/drop.txt", "handler.js"]) ⟨some ["a/**"], none⟩).1,
    by decide, by decide⟩

/-- C3, as stated, fails: over the one-file tree `handler.js`, no exclude and
include `nonexistent/**` (which matches no file) the resolver returns the file
instead of failing. -/
theorem resolve_unmatched_include_counterexample :
    (∀ f ∈ ["handler.js"], isMatchOf sampleMatcher "nonexistent/**" f = false) ∧
    resolveFilePathsFromPatterns false sampleMatcher (fun _ => Except.ok ["handler.js"])
        ⟨some [], some ["nonexistent/**"]⟩ = Except.ok ["handler.js"] := by
  decide

/-- C3 amended: with no exclude patterns and include `nonexistent/**`, which
the matcher accepts and which matches no file of the tree, every candidate
keeps its initial state: when the tree has a file other than `__proto__` the
resolver returns a list, and a path other than `__proto__` is in it exactly
when it is a candidate; the resolver fails with the
`No file matches include / exclude patterns` error when the candidate list is
empty. -/
theorem resolve_unmatched_include (win32 : Bool)
    (matcher : String → Except String (String → Bool))
    (globby : List String → Except String (List String)) (excl : Option (List String))
    (files : List String)
    (hexcl : excl.getD [] = [])
    (hg : globby ["**", "nonexistent/**"] = Except.ok files)
    (hacc : accepts matcher "nonexistent/**" = true)
    (hno : ∀ f ∈ files, isMatchOf matcher "nonexistent/**" f = false) :
    (files = [] →
      resolveFilePathsFromPatterns win32 matcher globby ⟨excl, some ["nonexistent/**"]⟩ =
        Except.error noFileMatches) ∧
    ((∃ c ∈ files, c ≠ protoKey) →
      ∃ l, resolveFilePathsFromPatterns win32 matcher globby
            ⟨excl, some ["nonexistent/**"]⟩ = Except.ok l ∧
          ∀ c, c ≠ protoKey → (c ∈ l ↔ c ∈ files)) := by
  have hord : orderedPatterns win32 (excl.getD []) ["nonexistent/**"] = ["nonexistent/**"] := by
    rw [hexcl]; cases win32 <;> decide
  have hglob : globOf "nonexistent/**" = "nonexistent/**" := by decide
  have hne : GlobsAccepted matcher (orderedPatterns win32
      ((⟨excl, some ["nonexistent/**"]⟩ : Params).exclude.getD [])
      ((⟨excl, some ["nonexistent/**"]⟩ : Params).«include».getD [])) := by
    simp only [Option.getD_some, hord]
    intro p hp
    simp only [List.mem_singleton] at hp
    subst hp
    rw [hglob]; exact hacc
  have hg2 : globby ("**" :: (⟨excl, some ["nonexistent/**"]⟩ : Params).«include».getD [])
      = Except.ok files := hg
  have hv : ∀ c ∈ files, lastMatchVerdict (isMatchOf matcher) ["nonexistent/**"] c = true := by
    intro c hc
    apply lastMatchVerdict_of_no_match
    intro q hq
    simp only [List.mem_singleton] at hq
    subst hq
    rw [hglob]; exact hno c hc
  constructor
  · intro hnil
    obtain ⟨st, _, hget, hmem, _, hres⟩ :=
      resolve_of_globs win32 matcher globby _ files hg2 hne
    rw [hres, if_neg]
    intro hne2
    obtain ⟨c, hc⟩ := List.exists_mem_of_ne_nil _ hne2
    have hs := (hmem c).1 hc
    rw [hget, hnil] at hs
    simp at hs
  · rintro ⟨c, hc, hp⟩
    obtain ⟨l, hl⟩ := resolve_ok_of_included win32 matcher globby
      ⟨excl, some ["nonexistent/**"]⟩ files hg2 hne c hc hp
      (by simpa [hord] using hv c hc)
    refine ⟨l, hl, fun d hd => ?_⟩
    rw [mem_resolve_iff win32 matcher globby _ files hg2 hne l hl d]
    simp only [Option.getD_some, hord]
    exact ⟨fun h => h.1.1, fun h => ⟨⟨h, hd⟩, hv d h⟩⟩

/-- Instance of the amended C3 on the tree `handler.js`, `lib/util.js`. -/
theorem resolve_unmatched_include_witness :
    (Option.getD (some ([] : List String)) [] = []) ∧
    accepts sampleMatcher "nonexistent/**" = true ∧
    (∀ f ∈ ["handler.js", "lib/util.js"],
      isMatchOf sampleMatcher "nonexistent/**" f = false) ∧
    ∃ l, resolveFilePathsFromPatterns false sampleMatcher
          (fun _ => Except.ok ["handler.js", "lib/util.js"])
          ⟨some [], some ["nonexistent/**"]⟩ = Except.ok l ∧
        ∀ c, c ≠ protoKey → (c ∈ l ↔ c ∈ ["handler.js", "lib/util.js"]) :=
  ⟨rfl, by decide, by decide,
    (resolve_unmatched_include false sampleMatcher
      (fun _ => Except.ok ["handler.js", "lib/util.js"])
      (some []) ["handler.js", "lib/util.js"] rfl rfl (by decide) (by decide)).2
      ⟨"handler.js", by simp, by decide⟩⟩

theorem startsWithBang_toPosixSlashes (win32 : Bool) (p : String) :
    startsWithBang (toPosixSlashes win32 p) = startsWithBang p := by
  cases win32
  · rfl
  · obtain ⟨d⟩ := p
    cases d with
    | nil => rfl
    | cons c t =>
      simp only [toPosixSlashes, startsWithBang, if_true, List.map_cons]
      by_cases hc : c = Char.ofNat 92
      · subst hc; decide
      · simp [hc]

theorem toPosixSlashes_bang_cons (win32 : Bool) (d : List Char) :
    toPosixSlashes win32 ⟨'!' :: d⟩ = ⟨'!' :: (toPosixSlashes win32 ⟨d⟩).data⟩ := by
  cases win32
  · rfl
  · simp only [toPosixSlashes, if_true, List.map_cons]
    have : ¬ ('!' = Char.ofNat 92) := by decide
    simp [this]

/-- C4, as stated, fails: the exclude pattern `!a.txt` is pushed as `a.txt`,
which is not negated; applied to a dictionary in which `a.txt` is excluded it
sets the state to included, and the resolver returns the file. -/
theorem exclude_negated_counterexample :
    excludeToPattern "!a.txt" = "a.txt" ∧
    startsWithBang (excludeToPattern "!a.txt") = false ∧
    applyPattern sampleMatcher ["a.txt"] [("a.txt", false)] (excludeToPattern "!a.txt") =
      Except.ok [("a.txt", true)] ∧
    resolveFilePathsFromPatterns false sampleMatcher (fun _ => Except.ok ["a.txt"])
        ⟨some ["a.txt", "!a.txt"], none⟩ = Except.ok ["a.txt"] := by
  decide

/-- C4 amended: an exclude pattern that does not start with `!` is pushed with
`!` in front, so every candidate it matches has its state set to excluded when
that pattern is applied (the pattern is applied when the matcher accepts it,
and the call throws the matcher's `TypeError` when the pattern is empty; the
assignment to the key `__proto__` leaves the dictionary as it is); an exclude
pattern that starts with `!` is pushed with that first character removed. -/
theorem exclude_negated (win32 : Bool)
    (matcher : String → Except String (String → Bool))
    (files : List String) (states : FileStates) (pattern : String) :
    (startsWithBang pattern = false →
      excludeToPattern pattern = ⟨'!' :: pattern.data⟩ ∧
      marksInclude (toPosixSlashes win32 (excludeToPattern pattern)) = false ∧
      globOf (toPosixSlashes win32 (excludeToPattern pattern)) = toPosixSlashes win32 pattern ∧
      (accepts matcher (toPosixSlashes win32 pattern) = true →
        ∃ st, applyPattern matcher files states
            (toPosixSlashes win32 (excludeToPattern pattern)) = Except.ok st ∧
          ∀ c ∈ files, isMatchOf matcher (toPosixSlashes win32 pattern) c = true →
            getState st c = if c = protoKey then getState states c else some false) ∧
      (toPosixSlashes win32 pattern = "" →
        applyPattern matcher files states
          (toPosixSlashes win32 (excludeToPattern pattern)) =
          Except.error emptyPatternError)) ∧
    (startsWithBang pattern = true → excludeToPattern pattern = dropFirst pattern) := by
  constructor
  · intro h
    have hpush : excludeToPattern pattern = ⟨'!' :: pattern.data⟩ := by
      simp [excludeToPattern, h]
    have hbang : startsWithBang (toPosixSlashes win32 (excludeToPattern pattern)) = true := by
      rw [startsWithBang_toPosixSlashes, hpush]; rfl
    have hglob : globOf (toPosixSlashes win32 (excludeToPattern pattern)) =
        toPosixSlashes win32 pattern := by
      unfold globOf
      rw [hbang, if_pos rfl, hpush, toPosixSlashes_bang_cons]
      rfl
    have hmark : marksInclude (toPosixSlashes win32 (excludeToPattern pattern)) = false := by
      simp [marksInclude, hbang]
    refine ⟨hpush, hmark, hglob, fun hacc => ?_, fun hempty => ?_⟩
    · refine ⟨_, applyPattern_ok matcher files states _ (by rw [hglob]; exact hacc),
        fun c hc hm => ?_⟩
      rw [getState_markMatches, hglob, hmark]
      by_cases hp : c = protoKey
      · simp [hp]
      · simp [hc, hm, hp]
    · exact applyPattern_error_empty matcher files states _ (by rw [hglob]; exact hempty)
  · intro h
    simp [excludeToPattern, h]

/-- Instance of the amended C4: exclude `a/**` applied over `a/keep.txt`. -/
theorem exclude_negated_witness :
    startsWithBang "a/**" = false ∧
    accepts sampleMatcher (toPosixSlashes false "a/**") = true ∧
    ∃ st, applyPattern sampleMatcher ["a/keep.txt"] [("a/keep.txt", true)]
        (toPosixSlashes false (excludeToPattern "a/**")) = Except.ok st ∧
      ∀ c ∈ ["a/keep.txt"], isMatchOf sampleMatcher (toPosixSlashes false "a/**") c = true →
        getState st c = if c = protoKey then getState [("a/keep.txt", true)] c
          else some false :=
  ⟨by decide, by decide,
    ((exclude_negated false sampleMatcher ["a/keep.txt"] [("a/keep.txt", true)] "a/**").1
      (by decide)).2.2.2.1 (by decide)⟩

/-! ## Theorems: exclude lists -/

theorem mem_uniq_foldl (l acc : List String) (x : String) :
    x ∈ l.foldl (fun acc x => if x ∈ acc then acc else acc ++ [x]) acc ↔ x ∈ acc ∨ x ∈ l := by
  induction l generalizing acc with
  | nil => simp
  | cons a t ih =>
    rw [List.foldl_cons, ih]
    by_cases ha : a ∈ acc
    · simp only [ha, if_true, List.mem_cons]
      constructor
      · rintro (h | h)
        · exact Or.inl h
        · exact Or.inr (Or.inr h)
      · rintro (h | h | h)
        · exact Or.inl h
        · subst h; exact Or.inl ha
        · exact Or.inr h
    · simp only [ha, if_false, List.mem_append, List.mem_singleton, List.mem_cons]
      tauto

theorem mem_uniq (l : List String) (x : String) : x ∈ uniq l ↔ x ∈ l := by
  unfold uniq
  rw [mem_uniq_foldl]
  simp

theorem mem_union (arrays : List (List String)) (x : String) :
    x ∈ union arrays ↔ ∃ a ∈ arrays, x ∈ a := by
  unfold union
  rw [mem_uniq, List.mem_flatten]

theorem mem_getExcludes (basename : String → String) (sls : Serverless)
    (exclude : Option (List String)) (excludeLayers : Bool) (p : String) :
    p ∈ getExcludes basename sls exclude excludeLayers ↔
      p ∈ defaultExcludes ∨
      (truthy sls.configurationPath = true ∧ p = basename (sls.configurationPath.getD "")) ∨
      (truthy sls.pluginsLocalPath = true ∧ p = sls.pluginsLocalPath.getD "") ∨
      p ∈ sls.packageExclude.getD [] ∨
      (excludeLayers = true ∧ ∃ layer ∈ sls.getAllLayers, p = layerGlob sls layer) ∨
      (sls.useDotenv = true ∧ p = ".env*") ∨
      p ∈ exclude.getD [] := by
  unfold getExcludes
  simp only [mem_union, List.mem_cons, List.mem_singleton, List.not_mem_nil, or_false,
    exists_eq_or_imp, exists_eq_left]
  have e1 : (p ∈ if truthy sls.configurationPath = true
      then [basename (sls.configurationPath.getD "")] else []) ↔
      (truthy sls.configurationPath = true ∧ p = basename (sls.configurationPath.getD "")) := by
    split <;> simp_all
  have e2 : (p ∈ if truthy sls.pluginsLocalPath = true
      then [sls.pluginsLocalPath.getD ""] else []) ↔
      (truthy sls.pluginsLocalPath = true ∧ p = sls.pluginsLocalPath.getD "") := by
    split <;> simp_all
  have e3 : (p ∈ if excludeLayers = true then sls.getAllLayers.map (layerGlob sls) else []) ↔
      (excludeLayers = true ∧ ∃ layer ∈ sls.getAllLayers, p = layerGlob sls layer) := by
    cases excludeLayers
    · simp
    · simp only [if_true, List.mem_map, true_and]
      constructor
      · rintro ⟨a, ha, rfl⟩; exact ⟨a, ha, rfl⟩
      · rintro ⟨a, ha, rfl⟩; exact ⟨a, ha, rfl⟩
  have e4 : (p ∈ if sls.useDotenv = true then [".env*"] else []) ↔
      (sls.useDotenv = true ∧ p = ".env*") := by
    split <;> simp_all
  rw [e1, e2, e3, e4]

/-- C10, as stated, fails: in a service with layers `layers/a` and `layers/b`
the exclude list built for layer `layerA` and handed through to the resolver
does not contain `layers/b/**`, while the list built for a function does. -/
theorem layer_excludes_counterexample :
    (layerParams sampleBasename twoLayerService "layerA").exclude =
      some (defaultExcludes ++ ["serverless.yml"]) ∧
    "layers/b/**" ∉ ((fun p => p : Params → Params)
      (layerParams sampleBasename twoLayerService "layerA")).exclude.getD [] ∧
    "layers/b/**" ∈ (functionParams sampleBasename twoLayerService "hello").exclude.getD [] := by
  decide

/-- C10 amended: the exclude list that `resolveFilePathsLayer` builds consists
of exactly the default excludes, the configuration file name, the local
plugins path, the package excludes, the `.env*` pattern when dotenv is in use
and the layer's own excludes: it is built with `excludeLayers = false`, so no
`<path>/**` pattern of another layer is added on its account. The lists built
for a function and for the whole service contain `<path>/**` for every layer
of the service. -/
theorem layer_excludes (basename : String → String) (sls : Serverless) :
    (∀ (layerName p : String),
      p ∈ (layerParams basename sls layerName).exclude.getD [] ↔
        p ∈ defaultExcludes ∨
        (truthy sls.configurationPath = true ∧ p = basename (sls.configurationPath.getD "")) ∨
        (truthy sls.pluginsLocalPath = true ∧ p = sls.pluginsLocalPath.getD "") ∨
        p ∈ sls.packageExclude.getD [] ∨
        (sls.useDotenv = true ∧ p = ".env*") ∨
        p ∈ (((sls.getLayer layerName).bind (fun l => l.package)).bind
          (fun c => c.exclude)).getD []) ∧
    (∀ (functionName : String) (layer : LayerObject), layer ∈ sls.layers →
      sls.getLayer layer.name = some layer →
      layer.path ++ "/**" ∈ (functionParams basename sls functionName).exclude.getD [] ∧
      layer.path ++ "/**" ∈ (allParams basename sls).exclude.getD []) := by
  constructor
  · intro layerName p
    simp only [layerParams, Option.getD_some, mem_getExcludes]
    simp
  · intro functionName layer hl hget
    have hglob : layerGlob sls layer.name = layer.path ++ "/**" := by
      simp [layerGlob, hget]
    have hname : layer.name ∈ sls.getAllLayers := by
      unfold Serverless.getAllLayers
      exact List.mem_map_of_mem _ hl
    constructor
    · simp only [functionParams, Option.getD_some, mem_getExcludes]
      exact Or.inr (Or.inr (Or.inr (Or.inr (Or.inl ⟨trivial, layer.name, hname, hglob.symm⟩))))
    · simp only [allParams, Option.getD_some, mem_getExcludes]
      exact Or.inr (Or.inr (Or.inr (Or.inr (Or.inl ⟨trivial, layer.name, hname, hglob.symm⟩))))

/-- Instance of the amended C10 on the two-layer service. -/
theorem layer_excludes_witness :
    (⟨"layerB", "layers/b", none⟩ : LayerObject) ∈ twoLayerService.layers ∧
    "layers/b/**" ∈ (functionParams sampleBasename twoLayerService "hello").exclude.getD [] :=
  ⟨by decide,
    ((layer_excludes sampleBasename twoLayerService).2 "hello" ⟨"layerB", "layers/b", none⟩
      (by decide) (by decide)).1⟩

/-! ## Theorems: sequential task queue -/

theorem sequentialTrace_succ (m : Nat) :
    sequentialTrace (m + 1) = sequentialTrace m ++ [seqEvent m] := by
  simp [sequentialTrace, List.range_succ]

theorem seqEvent_even (k : Nat) : seqEvent (2 * k) = TraceEvent.started k := by
  simp [seqEvent]

theorem seqEvent_odd (k : Nat) : seqEvent (2 * k + 1) = TraceEvent.finished k true := by
  have h1 : (2 * k + 1) % 2 = 1 := by omega
  have h2 : (2 * k + 1) / 2 = k := by omega
  simp [seqEvent, h1, h2]

theorem getElem?_sequentialTrace (m j : Nat) :
    (sequentialTrace m)[j]? = if j < m then some (seqEvent j) else none := by
  unfold sequentialTrace
  by_cases h : j < m
  · simp [h, List.getElem?_range]
  · simp [h]
    omega

theorem runningAfter_append (tr : List TraceEvent) (ev : TraceEvent) :
    runningAfter (tr ++ [ev]) =
      match ev with
      | TraceEvent.started e => runningAfter tr ++ [e]
      | TraceEvent.finished e _ => (runningAfter tr).erase e := by
  unfold runningAfter
  rw [List.foldl_append]
  cases ev <;> rfl

theorem runningAfter_sequentialTrace (k : Nat) :
    runningAfter (sequentialTrace (2 * k)) = [] ∧
    runningAfter (sequentialTrace (2 * k + 1)) = [k] := by
  induction k with
  | zero => constructor <;> rfl
  | succ n ih =>
    have h0 : runningAfter (sequentialTrace (2 * (n + 1))) = [] := by
      have e : 2 * (n + 1) = (2 * n + 1) + 1 := by ring
      rw [e, sequentialTrace_succ, runningAfter_append, seqEvent_odd, ih.2]
      simp
    refine ⟨h0, ?_⟩
    rw [sequentialTrace_succ, runningAfter_append, seqEvent_even, h0]
    rfl

theorem startOrder_append (tr : List TraceEvent) (ev : TraceEvent) :
    startOrder (tr ++ [ev]) =
      match ev with
      | TraceEvent.started e => startOrder tr ++ [e]
      | TraceEvent.finished _ _ => startOrder tr := by
  unfold startOrder
  rw [List.filterMap_append]
  cases ev <;> simp

theorem startOrder_sequentialTrace (k : Nat) :
    startOrder (sequentialTrace (2 * k)) = List.range k ∧
    startOrder (sequentialTrace (2 * k + 1)) = List.range (k + 1) := by
  induction k with
  | zero => constructor <;> rfl
  | succ n ih =>
    have h0 : startOrder (sequentialTrace (2 * (n + 1))) = List.range (n + 1) := by
      have e : 2 * (n + 1) = (2 * n + 1) + 1 := by ring
      rw [e, sequentialTrace_succ, startOrder_append, seqEvent_odd, ih.2]
    refine ⟨h0, ?_⟩
    rw [sequentialTrace_succ, startOrder_append, seqEvent_even, h0]
    simp [List.range_succ]

/-- In a sequential trace a task starts only after every earlier task has finished. -/
theorem sequentialTrace_ordered (m i e : Nat)
    (h : (sequentialTrace m)[i]? = some (TraceEvent.started e)) (e0 : Nat) (he : e0 < e) :
    ∃ j, j < i ∧ (sequentialTrace m)[j]? = some (TraceEvent.finished e0 true) := by
  rw [getElem?_sequentialTrace] at h
  split at h
  · rename_i hi
    simp only [Option.some.injEq] at h
    unfold seqEvent at h
    split at h
    · rename_i hev
      injection h with h
      refine ⟨2 * e0 + 1, by omega, ?_⟩
      rw [getElem?_sequentialTrace, if_pos (by omega), seqEvent_odd]
    · cases h
  · cases h

theorem length_setNext (heap : List Entry) (i : Nat) (v : Option Nat) :
    (setNext heap i v).length = heap.length := by
  unfold setNext
  split <;> simp

theorem map_fn_setNext (heap : List Entry) (i : Nat) (v : Option Nat) :
    (setNext heap i v).map (fun en => en.fn) = heap.map (fun en => en.fn) := by
  unfold setNext
  split
  · rename_i en hen
    apply List.ext_getElem?
    intro j
    simp only [List.getElem?_map, List.getElem?_set]
    by_cases hij : i = j
    · subst hij
      have hlt : i < heap.length := by
        by_contra hn
        rw [List.getElem?_eq_none (by omega)] at hen
        cases hen
      simp [hen, hlt]
    · simp [hij]
  · rfl

theorem getElem?_set_ne_awaitingTask (calls : List CallState) (c c0 e : Nat)
    (v : CallState) (hv : ∀ e0, v ≠ CallState.awaitingTask e0)
    (h : calls[c0]? ≠ some (CallState.awaitingTask e)) :
    (calls.set c v)[c0]? ≠ some (CallState.awaitingTask e) := by
  rw [List.getElem?_set]
  split
  · split
    · intro hh
      injection hh with hh
      exact hv e hh
    · simp
  · exact h

theorem getElem?_append_singleton_ne (calls : List CallState) (c0 e : Nat)
    (v : CallState) (hv : ∀ e0, v ≠ CallState.awaitingTask e0)
    (h : calls[c0]? ≠ some (CallState.awaitingTask e)) :
    (calls ++ [v])[c0]? ≠ some (CallState.awaitingTask e) := by
  rw [List.getElem?_append]
  split
  · exact h
  · intro hh
    have : c0 - calls.length = 0 ∨ 0 < c0 - calls.length := by omega
    rcases this with h0 | h0
    · rw [h0] at hh
      simp only [List.getElem?_cons_zero, Option.some.injEq] at hh
      exact hv e hh
    · have : ([v] : List CallState)[c0 - calls.length]? = none := by
        apply List.getElem?_eq_none
        simp; omega
      rw [this] at hh
      cases hh

/-- Once no invocation is draining and `lastEntry` is set, a step starts no
task, resolves no promise and leaves `completionMonitor` as it is. -/
theorem step_of_noDrainer (st : QueueState) (ev : QEvent) (h : NoDrainer st) :
    NoDrainer (st.step ev) ∧ (st.step ev).trace = st.trace ∧
    (st.step ev).promises = st.promises ∧
    (st.step ev).completionMonitor = st.completionMonitor ∧
    (st.step ev).calls.length ≥ st.calls.length := by
  obtain ⟨hlast, hcalls⟩ := h
  cases ev with
  | call fn =>
    obtain ⟨last, hl⟩ := Option.ne_none_iff_exists'.mp hlast
    simp only [QueueState.step, sequentialExecute, hl]
    refine ⟨⟨by simp, fun c e => ?_⟩, trivial, trivial, trivial, by simp⟩
    exact getElem?_append_singleton_ne _ _ _ _ (by intro e0 hh; cases hh) (hcalls c e)
  | settle c ok =>
    have hst : st.step (QEvent.settle c ok) = st := by
      simp only [QueueState.step]
      split
      · rename_i e he
        exact absurd he (hcalls c e)
      · rfl
    rw [hst]
    exact ⟨⟨hlast, hcalls⟩, rfl, rfl, rfl, le_refl _⟩
  | resume c =>
    simp only [QueueState.step]
    split
    · refine ⟨⟨hlast, fun c0 e => ?_⟩, rfl, rfl, rfl, by simp⟩
      exact getElem?_set_ne_awaitingTask _ _ _ _ _ (by intro e0 hh; cases hh) (hcalls c0 e)
    · split
      · refine ⟨⟨hlast, fun c0 e => ?_⟩, rfl, rfl, rfl, by simp⟩
        exact getElem?_set_ne_awaitingTask _ _ _ _ _ (by intro e0 hh; cases hh) (hcalls c0 e)
      · exact ⟨⟨hlast, hcalls⟩, rfl, rfl, rfl, le_refl _⟩
    · exact ⟨⟨hlast, hcalls⟩, rfl, rfl, rfl, le_refl _⟩

/-- An invocation that has returned or thrown stays so. -/
theorem step_settled_call (st : QueueState) (ev : QEvent) (c : Nat) (v : CallState)
    (hv : v = CallState.returned ∨ v = CallState.rejected)
    (h : st.calls[c]? = some v) : (st.step ev).calls[c]? = some v := by
  have hlt : c < st.calls.length := by
    by_contra hn
    rw [List.getElem?_eq_none (by omega)] at h
    cases h
  cases ev with
  | call fn =>
    simp only [QueueState.step, sequentialExecute]
    split
    · simp only [List.getElem?_append_left hlt, h]
    · simp only [loopBody]
      rw [List.getElem?_set]
      split
      · omega
      · simp only [List.getElem?_append_left hlt, h]
  | settle c0 ok =>
    simp only [QueueState.step]
    split
    · rename_i e he
      have hne : c0 ≠ c := by
        intro hh; subst hh; rw [h] at he
        rcases hv with hv | hv <;> subst hv <;> cases he
      cases ok
      · simp only [Bool.false_eq_true, if_false]
        rw [List.getElem?_set_ne hne]; exact h
      · simp only [if_true, afterTask]
        split
        · simp only; rw [List.getElem?_set_ne hne]; exact h
        · split
          · simp only [loopBody]
            split <;> (simp only; rw [List.getElem?_set_ne hne]; exact h)
          · split <;> (simp only; rw [List.getElem?_set_ne hne]; exact h)
    · exact h
  | resume c0 =>
    simp only [QueueState.step]
    have hset : (st.calls.set c0 CallState.returned)[c]? = some v ∨ c0 = c := by
      by_cases hne : c0 = c
      · exact Or.inr hne
      · left; rw [List.getElem?_set_ne hne]; exact h
    split
    · rename_i he
      rcases hset with hs | hs
      · exact hs
      · subst hs; rw [h] at he
        rcases hv with hv | hv <;> subst hv <;> cases he
    · rename_i m he
      split
      · rcases hset with hs | hs
        · exact hs
        · subst hs; rw [h] at he
          rcases hv with hv | hv <;> subst hv <;> cases he
      · exact h
    · exact h

/-- An invocation suspended on a promise that is not resolved stays suspended
while no invocation is draining. -/
theorem step_blocked_call (st : QueueState) (ev : QEvent) (c m : Nat) (hnd : NoDrainer st)
    (hp : st.promises[m]? ≠ some true)
    (h : st.calls[c]? = some (CallState.awaitingMonitor (some m))) :
    (st.step ev).calls[c]? = some (CallState.awaitingMonitor (some m)) := by
  have hlt : c < st.calls.length := by
    by_contra hn
    rw [List.getElem?_eq_none (by omega)] at h
    cases h
  obtain ⟨hlast, hcalls⟩ := hnd
  cases ev with
  | call fn =>
    obtain ⟨last, hl⟩ := Option.ne_none_iff_exists'.mp hlast
    simp only [QueueState.step, sequentialExecute, hl]
    simp only [List.getElem?_append_left hlt, h]
  | settle c0 ok =>
    simp only [QueueState.step]
    split
    · rename_i e he
      exact absurd he (hcalls c0 e)
    · exact h
  | resume c0 =>
    simp only [QueueState.step]
    by_cases hne : c0 = c
    · subst hne
      rw [h]
      simp only [hp, if_false]
      exact h
    · split
      · simp only; rw [List.getElem?_set_ne hne]; exact h
      · split
        · simp only; rw [List.getElem?_set_ne hne]; exact h
        · exact h
      · exact h

theorem run_append (st : QueueState) (evs1 evs2 : List QEvent) :
    st.run (evs1 ++ evs2) = (st.run evs1).run evs2 := by
  simp [QueueState.run, List.foldl_append]

theorem run_cons (st : QueueState) (ev : QEvent) (evs : List QEvent) :
    st.run (ev :: evs) = (st.step ev).run evs := rfl

/-- Once no invocation is draining and `lastEntry` is set, no run starts a
task, resolves a promise or changes `completionMonitor`. -/
theorem run_of_noDrainer (st : QueueState) (evs : List QEvent) (h : NoDrainer st) :
    NoDrainer (st.run evs) ∧ (st.run evs).trace = st.trace ∧
    (st.run evs).promises = st.promises ∧
    (st.run evs).completionMonitor = st.completionMonitor := by
  induction evs generalizing st with
  | nil => exact ⟨h, rfl, rfl, rfl⟩
  | cons ev t ih =>
    rw [run_cons]
    obtain ⟨h1, h2, h3, h4, _⟩ := step_of_noDrainer st ev h
    obtain ⟨i1, i2, i3, i4⟩ := ih (st.step ev) h1
    exact ⟨i1, i2.trans h2, i3.trans h3, i4.trans h4⟩

theorem run_settled_call (st : QueueState) (evs : List QEvent) (c : Nat) (v : CallState)
    (hv : v = CallState.returned ∨ v = CallState.rejected)
    (h : st.calls[c]? = some v) : (st.run evs).calls[c]? = some v := by
  induction evs generalizing st with
  | nil => exact h
  | cons ev t ih =>
    rw [run_cons]
    exact ih _ (step_settled_call st ev c v hv h)

theorem run_blocked_call (st : QueueState) (evs : List QEvent) (c m : Nat)
    (hnd : NoDrainer st) (hp : st.promises[m]? ≠ some true)
    (h : st.calls[c]? = some (CallState.awaitingMonitor (some m))) :
    (st.run evs).calls[c]? = some (CallState.awaitingMonitor (some m)) := by
  induction evs generalizing st with
  | nil => exact h
  | cons ev t ih =>
    rw [run_cons]
    obtain ⟨h1, _, h3, _, _⟩ := step_of_noDrainer st ev hnd
    exact ih _ h1 (by rw [h3]; exact hp) (step_blocked_call st ev c m hnd hp h)

theorem getElem?_setNext (heap : List Entry) (i : Nat) (v : Option Nat) (j : Nat) :
    (setNext heap i v)[j]? =
      if i = j then heap[i]?.map (fun en => { en with next := v }) else heap[j]? := by
  unfold setNext
  cases h : heap[i]? with
  | none =>
    by_cases hij : i = j
    · subst hij; simp [h]
    · simp [hij]
  | some en =>
    simp only [List.getElem?_set]
    by_cases hij : i = j
    · subst hij
      have hlt : i < heap.length := by
        by_contra hn
        rw [List.getElem?_eq_none (by omega)] at h
        cases h
      simp [hlt]
    · simp [hij]

/-- A call made while `lastEntry` is set links the new entry to the end of the chain. -/
theorem sequentialExecute_linked (st : QueueState) (fn : Nat) (h : ChainInv st) :
    ChainInv (sequentialExecute st fn) ∧
    (sequentialExecute st fn).heap.length = st.heap.length + 1 ∧
    (sequentialExecute st fn).currentEntry = st.currentEntry ∧
    (sequentialExecute st fn).calls =
      st.calls ++ [CallState.awaitingMonitor st.completionMonitor] ∧
    (sequentialExecute st fn).trace = st.trace ∧
    (sequentialExecute st fn).completionResolve = st.completionResolve := by
  obtain ⟨hne, hlast, hnext⟩ := h
  have hpos : 0 < st.heap.length := List.length_pos.mpr hne
  simp only [sequentialExecute, hlast]
  refine ⟨⟨?_, ?_, ?_⟩, ?_, trivial, trivial, trivial, trivial⟩
  · intro hh
    have := congrArg List.length hh
    simp [length_setNext] at this
  · simp [length_setNext]
  · intro i hi
    simp only [length_setNext, List.length_append, List.length_singleton] at hi ⊢
    rw [getElem?_setNext]
    by_cases hi1 : st.heap.length - 1 = i
    · rw [if_pos hi1]
      have hlt : st.heap.length - 1 < st.heap.length := by omega
      rw [List.getElem?_append_left hlt, List.getElem?_eq_getElem hlt]
      have : i + 1 < st.heap.length + 1 := by omega
      simp only [Option.map_some', Option.some_bind, this, if_true]
      congr 1; omega
    · rw [if_neg hi1]
      by_cases hi2 : i < st.heap.length
      · rw [List.getElem?_append_left hi2, hnext i hi2]
        have h1 : i + 1 < st.heap.length := by omega
        have h2 : i + 1 < st.heap.length + 1 := by omega
        simp [h1, h2]
      · have hieq : i = st.heap.length := by omega
        subst hieq
        simp
  · simp [length_setNext]

theorem step_call_of_draining (st : QueueState) (fn k : Nat) (h : DrainingInv st k) :
    DrainingInv (st.step (QEvent.call fn)) k := by
  obtain ⟨hchain, hk, hcur, hc0, honly, htrace, hres⟩ := h
  obtain ⟨l1, l2, l3, l4, l5, l6⟩ := sequentialExecute_linked st fn hchain
  have hlen : 0 < st.calls.length := by
    by_contra hn
    rw [List.getElem?_eq_none (by omega)] at hc0
    cases hc0
  refine ⟨l1, by simp only [QueueState.step]; omega, by simp only [QueueState.step]; rw [l3, hcur],
    ?_, ?_, by simp only [QueueState.step]; rw [l5, htrace],
    by simp only [QueueState.step]; rw [l6, hres]⟩
  · simp only [QueueState.step]
    rw [l4, List.getElem?_append_left hlen, hc0]
  · intro c e hce
    simp only [QueueState.step] at hce
    rw [l4] at hce
    by_cases hc : c < st.calls.length
    · rw [List.getElem?_append_left hc] at hce
      exact honly c e hce
    · exfalso
      revert hce
      apply getElem?_append_singleton_ne _ _ _ _ (by intro e0 hh; cases hh)
      rw [List.getElem?_eq_none (by omega)]
      simp

theorem step_resume_of_draining (st : QueueState) (c k : Nat) (h : DrainingInv st k) :
    DrainingInv (st.step (QEvent.resume c)) k ∧
    (st.step (QEvent.resume c)).heap = st.heap := by
  obtain ⟨hchain, hk, hcur, hc0, honly, htrace, hres⟩ := h
  have hkeep : ∀ (calls : List CallState),
      calls = st.calls.set c CallState.returned → c ≠ 0 →
      DrainingInv { st with calls := calls } k := by
    intro calls hcalls hc
    subst hcalls
    refine ⟨hchain, hk, hcur, ?_, ?_, htrace, hres⟩
    · simp only; rw [List.getElem?_set_ne hc]; exact hc0
    · intro c1 e hce
      simp only at hce
      by_cases h1 : c = c1
      · subst h1
        rw [List.getElem?_set] at hce
        simp only [if_true] at hce
        split at hce <;> cases hce
      · rw [List.getElem?_set_ne h1] at hce
        exact honly c1 e hce
  have hne : ∀ m, st.calls[c]? = some (CallState.awaitingMonitor m) → c ≠ 0 := by
    intro m hm hc
    subst hc
    rw [hc0] at hm
    cases hm
  simp only [QueueState.step]
  split
  · rename_i he
    exact ⟨hkeep _ rfl (hne _ he), rfl⟩
  · rename_i m he
    split
    · exact ⟨hkeep _ rfl (hne _ he), rfl⟩
    · exact ⟨⟨hchain, hk, hcur, hc0, honly, htrace, hres⟩, rfl⟩
  · exact ⟨⟨hchain, hk, hcur, hc0, honly, htrace, hres⟩, rfl⟩

/-- When the running task completes, the drainer starts the next entry of the
chain if there is one, and otherwise stops draining. -/
theorem step_settle_of_draining (st : QueueState) (c k : Nat) (h : DrainingInv st k) :
    (st.step (QEvent.settle c true)).heap = st.heap ∧
    ((c ≠ 0 ∧ st.step (QEvent.settle c true) = st) ∨
     (c = 0 ∧ k + 1 < st.heap.length ∧ DrainingInv (st.step (QEvent.settle c true)) (k + 1)) ∨
     (c = 0 ∧ k + 1 = st.heap.length ∧ NoDrainer (st.step (QEvent.settle c true)) ∧
        (st.step (QEvent.settle c true)).trace = sequentialTrace (2 * (k + 1)))) := by
  obtain ⟨hchain, hk, hcur, hc0, honly, htrace, hres⟩ := h
  by_cases hc : c = 0
  · subst hc
    have hnextk := hchain.2.2 k hk
    have hfin : st.trace ++ [TraceEvent.finished k true] = sequentialTrace (2 * k + 1 + 1) := by
      rw [sequentialTrace_succ, seqEvent_odd, htrace]
    by_cases hk1 : k + 1 < st.heap.length
    · rw [if_pos hk1] at hnextk
      have hstep : st.step (QEvent.settle 0 true) =
          { st with trace := st.trace ++ [TraceEvent.finished k true] ++
                      [TraceEvent.started (k + 1)],
                    currentEntry := some (k + 1),
                    calls := st.calls.set 0 (CallState.awaitingTask (k + 1)) } := by
        simp only [QueueState.step, hc0, if_true, afterTask, hcur, hnextk, loopBody]
      rw [hstep]
      refine ⟨rfl, Or.inr (Or.inl ⟨rfl, hk1, hchain, hk1, rfl, ?_, ?_, ?_, hres⟩)⟩
      · have hlen : 0 < st.calls.length := by
          by_contra hn
          rw [List.getElem?_eq_none (by omega)] at hc0
          cases hc0
        simp [List.getElem?_set, hlen]
      · intro c1 e hce
        simp only at hce
        by_contra hne
        rw [List.getElem?_set_ne (fun hh => hne hh.symm)] at hce
        exact hne (honly c1 e hce)
      · simp only
        rw [hfin]
        have e : 2 * (k + 1) + 1 = (2 * k + 1 + 1) + 1 := by ring
        have e2 : 2 * k + 1 + 1 = 2 * (k + 1) := by ring
        rw [e, sequentialTrace_succ (2 * k + 1 + 1)]
        congr 2
        rw [e2, seqEvent_even]
    · rw [if_neg hk1] at hnextk
      have hstep : st.step (QEvent.settle 0 true) =
          { st with trace := st.trace ++ [TraceEvent.finished k true],
                    currentEntry := none,
                    promises := st.promises.set 0 true,
                    completionMonitor := none,
                    calls := st.calls.set 0 CallState.returned } := by
        simp only [QueueState.step, hc0, if_true, afterTask, hcur, hnextk, hres]
      rw [hstep]
      refine ⟨rfl, Or.inr (Or.inr ⟨rfl, by omega, ⟨?_, ?_⟩, ?_⟩)⟩
      · simp only; rw [hchain.2.1]; simp
      · intro c1 e hce
        simp only at hce
        by_cases h1 : c1 = 0
        · subst h1
          rw [List.getElem?_set] at hce
          simp only [if_true] at hce
          split at hce <;> cases hce
        · rw [List.getElem?_set_ne (fun hh => h1 hh.symm)] at hce
          exact h1 (honly c1 e hce)
      · simp only
        rw [hfin]
        rfl
  · have hst : st.step (QEvent.settle c true) = st := by
      simp only [QueueState.step]
      split
      · rename_i e he
        exact absurd (honly c e he) hc
      · rfl
    exact ⟨by rw [hst], Or.inl ⟨hc, hst⟩⟩

theorem step_call_init (fn : Nat) :
    DrainingInv (QueueState.init.step (QEvent.call fn)) 0 := by
  refine ⟨⟨?_, ?_, ?_⟩, ?_, ?_, ?_, ?_, ?_, ?_⟩
  · simp [QueueState.step, sequentialExecute, QueueState.init, loopBody]
  · simp [QueueState.step, sequentialExecute, QueueState.init, loopBody]
  · intro i hi
    simp only [QueueState.step, sequentialExecute, QueueState.init, loopBody,
      List.nil_append, List.length_singleton] at hi ⊢
    have : i = 0 := by omega
    subst this
    simp
  · simp [QueueState.step, sequentialExecute, QueueState.init, loopBody]
  · simp [QueueState.step, sequentialExecute, QueueState.init, loopBody]
  · simp [QueueState.step, sequentialExecute, QueueState.init, loopBody]
  · intro c e hce
    simp only [QueueState.step, sequentialExecute, QueueState.init, loopBody,
      List.nil_append, List.length_nil, List.set_cons_zero] at hce
    by_contra hne
    have : ([CallState.awaitingTask 0] : List CallState)[c]? = none := by
      apply List.getElem?_eq_none
      simp; omega
    rw [this] at hce
    cases hce
  · simp only [QueueState.step, sequentialExecute, QueueState.init, loopBody]
    rfl
  · simp [QueueState.step, sequentialExecute, QueueState.init, loopBody]

theorem step_init_other (ev : QEvent) (h : ∀ fn, ev ≠ QEvent.call fn) :
    QueueState.init.step ev = QueueState.init := by
  cases ev with
  | call fn => exact absurd rfl (h fn)
  | settle c ok => simp [QueueState.step, QueueState.init]
  | resume c => simp [QueueState.step, QueueState.init]

theorem heap_afterTask (st : QueueState) (c : Nat) : (afterTask st c).heap = st.heap := by
  unfold afterTask
  split
  · rfl
  · simp only
    split
    · unfold loopBody; split <;> rfl
    · split <;> rfl

/-- A step changes the tasks held in the heap only by appending the task of a call. -/
theorem heap_fn_step (st : QueueState) (ev : QEvent) :
    (st.step ev).heap.map (fun en => en.fn) =
      st.heap.map (fun en => en.fn) ++ submittedFns [ev] := by
  cases ev with
  | call fn =>
    simp only [QueueState.step, sequentialExecute, submittedFns]
    split
    · simp [map_fn_setNext]
    · simp [loopBody]
  | settle c ok =>
    simp only [QueueState.step, submittedFns]
    split
    · cases ok
      · simp
      · simp [heap_afterTask]
    · simp
  | resume c =>
    simp only [QueueState.step, submittedFns]
    split
    · simp
    · split <;> simp
    · simp

theorem heap_fn_run (st : QueueState) (evs : List QEvent) :
    (st.run evs).heap.map (fun en => en.fn) =
      st.heap.map (fun en => en.fn) ++ submittedFns evs := by
  induction evs generalizing st with
  | nil => simp [QueueState.run, submittedFns]
  | cons ev t ih =>
    rw [run_cons, ih, heap_fn_step]
    simp [submittedFns, List.filterMap_cons]
    cases ev <;> simp

theorem heap_length_step (st : QueueState) (ev : QEvent) :
    st.heap.length ≤ (st.step ev).heap.length := by
  have h := congrArg List.length (heap_fn_step st ev)
  simp only [List.length_map, List.length_append] at h
  omega

theorem step_queueInv (st : QueueState) (ev : QEvent)
    (hev : ∀ c, ev ≠ QEvent.settle c false) (h : QueueInv st) : QueueInv (st.step ev) := by
  rcases h with h | ⟨k, h⟩ | ⟨hnd, k, hk, htr⟩
  · subst h
    cases ev with
    | call fn => exact Or.inr (Or.inl ⟨0, step_call_init fn⟩)
    | settle c ok =>
      rw [step_init_other _ (by intro fn hh; cases hh)]; exact Or.inl rfl
    | resume c =>
      rw [step_init_other _ (by intro fn hh; cases hh)]; exact Or.inl rfl
  · cases ev with
    | call fn => exact Or.inr (Or.inl ⟨k, step_call_of_draining st fn k h⟩)
    | resume c => exact Or.inr (Or.inl ⟨k, (step_resume_of_draining st c k h).1⟩)
    | settle c ok =>
      cases ok
      · exact absurd rfl (hev c)
      · obtain ⟨hheap, hcase⟩ := step_settle_of_draining st c k h
        rcases hcase with ⟨_, hst⟩ | ⟨_, _, hd⟩ | ⟨_, hlen, hnd, htr⟩
        · rw [hst]; exact Or.inr (Or.inl ⟨k, h⟩)
        · exact Or.inr (Or.inl ⟨k + 1, hd⟩)
        · exact Or.inr (Or.inr ⟨hnd, k + 1, by rw [hheap]; omega, htr⟩)
  · obtain ⟨h1, h2, _, _, _⟩ := step_of_noDrainer st ev hnd
    refine Or.inr (Or.inr ⟨h1, k, ?_, by rw [h2, htr]⟩)
    have := heap_length_step st ev
    omega

theorem run_queueInv (st : QueueState) (evs : List QEvent)
    (hok : ∀ ev ∈ evs, ∀ c, ev ≠ QEvent.settle c false) (h : QueueInv st) :
    QueueInv (st.run evs) := by
  induction evs generalizing st with
  | nil => exact h
  | cons ev t ih =>
    rw [run_cons]
    exact ih _ (fun e he => hok e (List.mem_cons_of_mem _ he))
      (step_queueInv st ev (hok ev (List.mem_cons_self _ _)) h)

theorem draining_false_of_noDrainer (st : QueueState) (h : NoDrainer st) :
    st.draining = false := by
  cases hd : st.draining with
  | false => rfl
  | true =>
    exfalso
    unfold QueueState.draining at hd
    rw [List.any_eq_true] at hd
    obtain ⟨x, hx, hp⟩ := hd
    obtain ⟨i, hi, hget⟩ := List.getElem_of_mem hx
    cases x with
    | awaitingTask e =>
      apply h.2 i e
      rw [List.getElem?_eq_getElem hi, hget]
    | awaitingMonitor m => simp at hp
    | returned => simp at hp
    | rejected => simp at hp

theorem filterMap_range_getElem? (l : List Nat) (n : Nat) (h : n ≤ l.length) :
    (List.range n).filterMap (fun e => l[e]?) = l.take n := by
  induction n with
  | zero => simp
  | succ m ih =>
    have hm : m < l.length := by omega
    rw [List.range_succ, List.filterMap_append, ih (by omega), List.take_succ]
    simp [List.getElem?_eq_getElem hm]

/-- What the invariant says about the trace. -/
theorem trace_of_queueInv (st : QueueState) (h : QueueInv st) :
    ∃ m, st.trace = sequentialTrace m ∧ (m + 1) / 2 ≤ st.heap.length ∧
      startOrder st.trace = List.range ((m + 1) / 2) ∧
      (runningAfter st.trace).length ≤ 1 := by
  rcases h with h | ⟨k, h⟩ | ⟨hnd, k, hk, htr⟩
  · subst h
    exact ⟨0, rfl, by simp, rfl, by simp [runningAfter, QueueState.init]⟩
  · obtain ⟨_, hk, _, _, _, htr, _⟩ := h
    refine ⟨2 * k + 1, htr, by omega, ?_, ?_⟩
    · rw [htr, (startOrder_sequentialTrace k).2]
      congr 1; omega
    · rw [htr, (runningAfter_sequentialTrace k).2]; simp
  · refine ⟨2 * k, htr, by omega, ?_, ?_⟩
    · rw [htr, (startOrder_sequentialTrace k).1]
      congr 1; omega
    · rw [htr, (runningAfter_sequentialTrace k).1]; simp

theorem startedFns_of_queueInv (st : QueueState) (h : QueueInv st) :
    startedFns st = (st.heap.map (fun en => en.fn)).take (startOrder st.trace).length := by
  obtain ⟨m, _, hlen, hso, _⟩ := trace_of_queueInv st h
  unfold startedFns
  rw [hso, List.length_range]
  rw [← filterMap_range_getElem? _ _ (by simpa using hlen)]
  congr 1
  funext e
  simp [List.getElem?_map]

/-- While a chain is in progress, letting the running task complete again and
again starts every linked task in turn and ends the drain. -/
theorem drain_of_draining (d : Nat) (st : QueueState) (k : Nat) (h : DrainingInv st k)
    (hd : st.heap.length - k = d + 1) :
    NoDrainer (st.run (List.replicate (d + 1) (QEvent.settle 0 true))) ∧
    (st.run (List.replicate (d + 1) (QEvent.settle 0 true))).heap = st.heap ∧
    (st.run (List.replicate (d + 1) (QEvent.settle 0 true))).trace =
      sequentialTrace (2 * st.heap.length) := by
  induction d generalizing st k with
  | zero =>
    obtain ⟨hheap, hcase⟩ := step_settle_of_draining st 0 k h
    simp only [List.replicate, QueueState.run, List.foldl]
    rcases hcase with ⟨hc, _⟩ | ⟨_, hlt, _⟩ | ⟨_, hlen, hnd, htr⟩
    · exact absurd rfl hc
    · omega
    · exact ⟨hnd, hheap, by rw [htr, hlen]⟩
  | succ n ih =>
    obtain ⟨hheap, hcase⟩ := step_settle_of_draining st 0 k h
    rw [List.replicate_succ, run_cons]
    rcases hcase with ⟨hc, _⟩ | ⟨_, hlt, hdr⟩ | ⟨_, hlen, _, _⟩
    · exact absurd rfl hc
    · obtain ⟨i1, i2, i3⟩ := ih _ (k + 1) hdr (by rw [hheap]; omega)
      exact ⟨i1, by rw [i2, hheap], by rw [i3, hheap]⟩
    · omega

theorem noDrainer_of_calls (st : QueueState) (hl : st.lastEntry ≠ none)
    (h : ∀ x ∈ st.calls, ∀ e, x ≠ CallState.awaitingTask e) : NoDrainer st := by
  refine ⟨hl, fun c e hce => ?_⟩
  exact h _ (List.getElem?_mem hce) e rfl

theorem startedFns_single (st : QueueState) (t : Nat) (fns : List Nat)
    (hheap : st.heap.map (fun en => en.fn) = t :: fns)
    (htr : startOrder st.trace = [0]) : startedFns st = [t] := by
  unfold startedFns
  rw [htr]
  have h0 : (st.heap.map (fun en => en.fn))[0]? = some t := by rw [hheap]; simp
  rw [List.getElem?_map] at h0
  simp [h0]

/-- C6: in a run without a failing task, at every step at most one task is
running, the tasks that have started are the first ones submitted, in
submission order, and a task starts only after every task submitted before it
has finished. While a chain is in progress, letting the running tasks
complete starts every submitted task, in submission order. Tasks `t1`, `t2`,
`t3` submitted together start in the order `t1`, `t2`, `t3`. -/
theorem queue_runs_in_submission_order (evs : List QEvent)
    (hok : ∀ ev ∈ evs, ∀ c, ev ≠ QEvent.settle c false) :
    (runningAfter (QueueState.init.run evs).trace).length ≤ 1 ∧
    startedFns (QueueState.init.run evs) =
      (submittedFns evs).take (startOrder (QueueState.init.run evs).trace).length ∧
    (∀ (i e : Nat), (QueueState.init.run evs).trace[i]? = some (TraceEvent.started e) →
      ∀ e0, e0 < e → ∃ j, j < i ∧
        (QueueState.init.run evs).trace[j]? = some (TraceEvent.finished e0 true)) ∧
    ((QueueState.init.run evs).draining = true →
      ∃ n,
        ((QueueState.init.run evs).run
          (List.replicate n (QEvent.settle 0 true))).draining = false ∧
        startedFns ((QueueState.init.run evs).run
          (List.replicate n (QEvent.settle 0 true))) = submittedFns evs ∧
        runningAfter ((QueueState.init.run evs).run
          (List.replicate n (QEvent.settle 0 true))).trace = []) ∧
    (∀ t1 t2 t3 : Nat,
      startedFns (QueueState.init.run [QEvent.call t1, QEvent.call t2, QEvent.call t3,
        QEvent.settle 0 true, QEvent.settle 0 true, QEvent.settle 0 true]) = [t1, t2, t3] ∧
      (QueueState.init.run [QEvent.call t1, QEvent.call t2, QEvent.call t3,
        QEvent.settle 0 true, QEvent.settle 0 true, QEvent.settle 0 true]).trace =
        [TraceEvent.started 0, TraceEvent.finished 0 true, TraceEvent.started 1,
          TraceEvent.finished 1 true, TraceEvent.started 2, TraceEvent.finished 2 true]) := by
  have hinv : QueueInv (QueueState.init.run evs) :=
    run_queueInv _ evs hok (Or.inl rfl)
  have hfn : (QueueState.init.run evs).heap.map (fun en => en.fn) = submittedFns evs := by
    rw [heap_fn_run]; rfl
  obtain ⟨m, htr, _, _, hrun⟩ := trace_of_queueInv _ hinv
  refine ⟨hrun, ?_, ?_, ?_, ?_⟩
  · rw [startedFns_of_queueInv _ hinv, hfn]
  · intro i e hi e0 he
    rw [htr] at hi ⊢
    exact sequentialTrace_ordered m i e hi e0 he
  · intro hdr
    rcases hinv with h | ⟨k, h⟩ | ⟨hnd, _⟩
    · rw [h] at hdr; cases hdr
    · obtain ⟨d, hd⟩ : ∃ d, (QueueState.init.run evs).heap.length - k = d + 1 :=
        ⟨(QueueState.init.run evs).heap.length - k - 1, by have := h.2.1; omega⟩
      obtain ⟨hnd, hheap, htr2⟩ := drain_of_draining d _ k h hd
      refine ⟨d + 1, draining_false_of_noDrainer _ hnd, ?_, ?_⟩
      · have hinv2 : QueueInv ((QueueState.init.run evs).run
            (List.replicate (d + 1) (QEvent.settle 0 true))) :=
          Or.inr (Or.inr ⟨hnd, (QueueState.init.run evs).heap.length,
            by rw [hheap], htr2⟩)
        rw [startedFns_of_queueInv _ hinv2, htr2,
          (startOrder_sequentialTrace _).1, List.length_range, hheap, hfn]
        rw [← hfn]
        simp
      · rw [htr2, (runningAfter_sequentialTrace _).1]
    · rw [draining_false_of_noDrainer _ hnd] at hdr; cases hdr
  · intro t1 t2 t3
    constructor <;>
      simp [QueueState.run, QueueState.step, sequentialExecute, QueueState.init, loopBody,
        afterTask, setNext, startedFns, startOrder]

/-- Instance of C6: three tasks submitted together, the first two completed. -/
theorem queue_runs_in_submission_order_witness :
    (∀ ev ∈ [QEvent.call 7, QEvent.call 8, QEvent.call 9, QEvent.settle 0 true,
        QEvent.settle 0 true], ∀ c, ev ≠ QEvent.settle c false) ∧
    (runningAfter (QueueState.init.run [QEvent.call 7, QEvent.call 8, QEvent.call 9,
      QEvent.settle 0 true, QEvent.settle 0 true]).trace).length ≤ 1 ∧
    startedFns (QueueState.init.run [QEvent.call 7, QEvent.call 8, QEvent.call 9,
      QEvent.settle 0 true, QEvent.settle 0 true]) = [7, 8, 9] :=
  ⟨by simp,
    (queue_runs_in_submission_order [QEvent.call 7, QEvent.call 8, QEvent.call 9,
      QEvent.settle 0 true, QEvent.settle 0 true] (by simp)).1,
    by decide⟩

/-- C5 on the code: after the first chain has drained, a second call of
`sequentialExecute` finds `lastEntry` still set, links its task behind the
finished entry, awaits `completionMonitor`, which is `null`, and returns; its
task has not started then and is not started by any later step. -/
theorem queue_second_chain_never_runs (t1 t2 : Nat) (evs : List QEvent) :
    (QueueState.init.run [QEvent.call t1, QEvent.settle 0 true]).draining = false ∧
    (QueueState.init.run [QEvent.call t1, QEvent.settle 0 true]).completionMonitor = none ∧
    (QueueState.init.run [QEvent.call t1, QEvent.settle 0 true]).lastEntry = some 0 ∧
    (QueueState.init.run ([QEvent.call t1, QEvent.settle 0 true, QEvent.call t2,
      QEvent.resume 1] ++ evs)).calls[1]? = some CallState.returned ∧
    (QueueState.init.run ([QEvent.call t1, QEvent.settle 0 true, QEvent.call t2,
      QEvent.resume 1] ++ evs)).trace =
      [TraceEvent.started 0, TraceEvent.finished 0 true] ∧
    startedFns (QueueState.init.run ([QEvent.call t1, QEvent.settle 0 true, QEvent.call t2,
      QEvent.resume 1] ++ evs)) = [t1] ∧
    submittedFns ([QEvent.call t1, QEvent.settle 0 true, QEvent.call t2,
      QEvent.resume 1] ++ evs) = t1 :: t2 :: submittedFns evs := by
  have hnd : NoDrainer (QueueState.init.run [QEvent.call t1, QEvent.settle 0 true,
      QEvent.call t2, QEvent.resume 1]) := by
    apply noDrainer_of_calls
    · simp [QueueState.run, QueueState.step, sequentialExecute, QueueState.init, loopBody,
        afterTask, setNext]
    · intro x hx e
      have hcalls : (QueueState.init.run [QEvent.call t1, QEvent.settle 0 true,
          QEvent.call t2, QEvent.resume 1]).calls =
          [CallState.returned, CallState.returned] := rfl
      rw [hcalls] at hx
      simp only [List.mem_cons, List.mem_singleton, List.not_mem_nil, or_false] at hx
      rcases hx with hx | hx <;> subst hx <;> intro hh <;> cases hh
  obtain ⟨_, htr, _, _⟩ := run_of_noDrainer _ evs hnd
  have hsub : submittedFns ([QEvent.call t1, QEvent.settle 0 true, QEvent.call t2,
      QEvent.resume 1] ++ evs) = t1 :: t2 :: submittedFns evs := by
    simp [submittedFns, List.filterMap_append, List.filterMap_cons]
  refine ⟨rfl, rfl, rfl, ?_, ?_, ?_, hsub⟩
  · rw [run_append]
    exact run_settled_call _ evs 1 _ (Or.inl rfl) rfl
  · rw [run_append, htr]; rfl
  · apply startedFns_single _ t1 (t2 :: submittedFns evs)
    · rw [heap_fn_run, hsub]; rfl
    · rw [run_append, htr]; rfl

/-- C7 on the code: when the task of the draining invocation fails while a
second task is linked, the drainer throws out of its loop. For every later
run the second task has not started, the invocation that submitted it is
still suspended on the monitor promise, that promise is unresolved and
`completionMonitor` still holds it. -/
theorem queue_failure_wedges (t1 t2 : Nat) (evs : List QEvent) :
    (QueueState.init.run ([QEvent.call t1, QEvent.call t2, QEvent.settle 0 false]
      ++ evs)).trace = [TraceEvent.started 0, TraceEvent.finished 0 false] ∧
    startedFns (QueueState.init.run ([QEvent.call t1, QEvent.call t2,
      QEvent.settle 0 false] ++ evs)) = [t1] ∧
    (QueueState.init.run ([QEvent.call t1, QEvent.call t2, QEvent.settle 0 false]
      ++ evs)).calls[0]? = some CallState.rejected ∧
    (QueueState.init.run ([QEvent.call t1, QEvent.call t2, QEvent.settle 0 false]
      ++ evs)).calls[1]? = some (CallState.awaitingMonitor (some 0)) ∧
    (QueueState.init.run ([QEvent.call t1, QEvent.call t2, QEvent.settle 0 false]
      ++ evs)).promises = [false] ∧
    (QueueState.init.run ([QEvent.call t1, QEvent.call t2, QEvent.settle 0 false]
      ++ evs)).completionMonitor = some 0 ∧
    (QueueState.init.run ([QEvent.call t1, QEvent.call t2, QEvent.settle 0 false]
      ++ evs)).draining = false := by
  have hnd : NoDrainer (QueueState.init.run [QEvent.call t1, QEvent.call t2,
      QEvent.settle 0 false]) := by
    apply noDrainer_of_calls
    · simp [QueueState.run, QueueState.step, sequentialExecute, QueueState.init, loopBody,
        setNext]
    · intro x hx e
      have hcalls : (QueueState.init.run [QEvent.call t1, QEvent.call t2,
          QEvent.settle 0 false]).calls =
          [CallState.rejected, CallState.awaitingMonitor (some 0)] := rfl
      rw [hcalls] at hx
      simp only [List.mem_cons, List.mem_singleton, List.not_mem_nil, or_false] at hx
      rcases hx with hx | hx <;> subst hx <;> intro hh <;> cases hh
  obtain ⟨hnd2, htr, hpr, hmon⟩ := run_of_noDrainer _ evs hnd
  have hsub : submittedFns ([QEvent.call t1, QEvent.call t2, QEvent.settle 0 false] ++ evs)
      = t1 :: t2 :: submittedFns evs := by
    simp [submittedFns, List.filterMap_append, List.filterMap_cons]
  refine ⟨?_, ?_, ?_, ?_, ?_, ?_, ?_⟩
  · rw [run_append, htr]; rfl
  · apply startedFns_single _ t1 (t2 :: submittedFns evs)
    · rw [heap_fn_run, hsub]; rfl
    · rw [run_append, htr]; rfl
  · rw [run_append]
    exact run_settled_call _ evs 0 _ (Or.inr rfl) rfl
  · rw [run_append]
    exact run_blocked_call _ evs 1 0 hnd
      (by rw [show (QueueState.init.run [QEvent.call t1, QEvent.call t2,
            QEvent.settle 0 false]).promises = [false] from rfl]; decide) rfl
  · rw [run_append, hpr]; rfl
  · rw [run_append, hmon]; rfl
  · rw [run_append]
    exact draining_false_of_noDrainer _ hnd2

/-! ## Theorems: build deduplication -/

theorem getElem?_updateRequest_ne (reqs : List Request) (r0 r : Nat) (f : Request → Request)
    (h : r0 ≠ r) : (updateRequest reqs r0 f)[r]? = reqs[r]? := by
  unfold updateRequest
  split
  · rw [List.getElem?_set_ne h]
  · rfl

theorem advanceQueue_same_trace (st : BuildState) (q : QueueState)
    (h : q.trace = st.queue.trace) :
    (advanceQueue st q).compiled = st.compiled ∧ (advanceQueue st q).queue = q ∧
    (advanceQueue st q).promises = st.promises ∧
    (advanceQueue st q).requests = st.requests := by
  unfold advanceQueue
  simp [h]

/-- While no invocation of the queue is draining, the loop of
`buildDotNetFunction` invokes no compiler, resolves no promise and leaves the
other invocations as they are. -/
theorem buildLoop_frame (l : List String) (st : BuildState) (r0 r p : Nat)
    (hnd : NoDrainer st.queue) (hne : r0 ≠ r) (hp : st.promises[p]? = some none) :
    NoDrainer (buildLoop st r0 l).queue ∧
    (buildLoop st r0 l).queue.trace = st.queue.trace ∧
    (buildLoop st r0 l).compiled = st.compiled ∧
    (buildLoop st r0 l).promises[p]? = some none ∧
    (buildLoop st r0 l).requests[r]? = st.requests[r]? := by
  induction l generalizing st with
  | nil =>
    simp only [buildLoop]
    exact ⟨hnd, trivial, trivial, hp, getElem?_updateRequest_ne _ _ _ _ hne⟩
  | cons srcPath rest ih =>
    simp only [buildLoop]
    split
    · split
      · exact ⟨hnd, rfl, rfl, hp, getElem?_updateRequest_ne _ _ _ _ hne⟩
      · obtain ⟨h1, h2, _, _, _⟩ := step_of_noDrainer st.queue (QEvent.call r0) hnd
        have hplt : p < st.promises.length := by
          by_contra hn
          rw [List.getElem?_eq_none (by omega)] at hp
          cases hp
        simp only [advanceQueue]
        refine ⟨h1, h2, ?_, ?_, getElem?_updateRequest_ne _ _ _ _ hne⟩
        · have : (sequentialExecute st.queue r0).trace = st.queue.trace := h2
          simp [this]
        · rw [List.getElem?_append_left hplt]; exact hp
    · obtain ⟨i1, i2, i3, i4, i5⟩ := ih
        { st with requests := (updateRequest st.requests r0
            (fun req => { req with srcPath := srcPath })) } hnd hp
      exact ⟨i1, i2, i3, i4, i5.trans (getElem?_updateRequest_ne _ _ _ _ hne)⟩

theorem step_stuck (sls : Serverless) (zipFiles : String → String) (st : BuildState)
    (ev : BEvent) (r p : Nat) (h : Stuck st r p) :
    Stuck (st.step sls zipFiles ev) r p ∧
    (st.step sls zipFiles ev).compiled = st.compiled ∧
    (st.step sls zipFiles ev).queue.trace = st.queue.trace := by
  obtain ⟨hnd, hp, req, hreq, hst⟩ := h
  have hrlt : r < st.requests.length := by
    by_contra hn
    rw [List.getElem?_eq_none (by omega)] at hreq
    cases hreq
  cases ev with
  | clear => exact ⟨⟨hnd, hp, req, hreq, hst⟩, rfl, rfl⟩
  | build functionName incl =>
    cases incl with
    | none =>
      simp only [BuildState.step]
      refine ⟨⟨hnd, hp, req, ?_, hst⟩, trivial, trivial⟩
      rw [List.getElem?_append_left hrlt]; exact hreq
    | some inc =>
      simp only [BuildState.step]
      obtain ⟨i1, i2, i3, i4, i5⟩ := buildLoop_frame (getIncludes sls (some inc))
        { st with requests := st.requests ++
            [{ functionName := functionName, srcPath := "", remaining := [],
               completionResolver := none, artifact := none,
               status := RequestStatus.returned }] }
        st.requests.length r p hnd (by omega) hp
      refine ⟨⟨i1, i4, req, ?_, hst⟩, i3, i2⟩
      rw [i5]
      simp only
      rw [List.getElem?_append_left hrlt]; exact hreq
  | taskSettles c ok =>
    have hsame : st.step sls zipFiles (BEvent.taskSettles c ok) = st := by
      simp only [BuildState.step]
      split
      · rename_i e he
        exact absurd he (hnd.2 c e)
      · rfl
    rw [hsame]
    exact ⟨⟨hnd, hp, req, hreq, hst⟩, rfl, rfl⟩
  | queueResume c =>
    obtain ⟨h1, h2, _, _, _⟩ := step_of_noDrainer st.queue (QEvent.resume c) hnd
    obtain ⟨a1, a2, a3, a4⟩ := advanceQueue_same_trace st _ h2
    simp only [BuildState.step]
    refine ⟨⟨by rw [a2]; exact h1, by rw [a3]; exact hp, req, by rw [a4]; exact hreq, hst⟩,
      a1, by rw [a2]; exact h2⟩
  | requestResume r0 =>
    by_cases hr : r0 = r
    · subst hr
      have hsame : st.step sls zipFiles (BEvent.requestResume r0) = st := by
        simp only [BuildState.step, hreq, hst, hp]
      rw [hsame]
      exact ⟨⟨hnd, hp, req, hreq, hst⟩, rfl, rfl⟩
    · simp only [BuildState.step]
      split
      · rename_i req0 hreq0
        split
        · rename_i p0 hs0
          split
          · rename_i a ha
            obtain ⟨i1, i2, i3, i4, i5⟩ := buildLoop_frame req0.remaining
              { st with requests := (updateRequest st.requests r0
                  (fun q => { q with artifact := some a })) }
              r0 r p hnd hr hp
            refine ⟨⟨i1, i4, req, ?_, hst⟩, i3, i2⟩
            rw [i5]
            simp only
            rw [getElem?_updateRequest_ne _ _ _ _ hr]; exact hreq
          · exact ⟨⟨hnd, hp, req, hreq, hst⟩, rfl, rfl⟩
        · rename_i c hs0
          split
          · obtain ⟨i1, i2, i3, i4, i5⟩ := buildLoop_frame req0.remaining st r0 r p hnd hr hp
            exact ⟨⟨i1, i4, req, by rw [i5]; exact hreq, hst⟩, i3, i2⟩
          · refine ⟨⟨hnd, hp, req, ?_, hst⟩, rfl, rfl⟩
            simp only
            rw [getElem?_updateRequest_ne _ _ _ _ hr]; exact hreq
          · exact ⟨⟨hnd, hp, req, hreq, hst⟩, rfl, rfl⟩
        · exact ⟨⟨hnd, hp, req, hreq, hst⟩, rfl, rfl⟩
      · exact ⟨⟨hnd, hp, req, hreq, hst⟩, rfl, rfl⟩

theorem brun_append (sls : Serverless) (zipFiles : String → String) (st : BuildState)
    (evs1 evs2 : List BEvent) :
    BuildState.run sls zipFiles st (evs1 ++ evs2) =
      BuildState.run sls zipFiles (BuildState.run sls zipFiles st evs1) evs2 := by
  simp [BuildState.run, List.foldl_append]

/-- A suspended invocation whose promise is unresolved stays suspended, and no
compiler runs, whatever steps follow, once no queue invocation is draining. -/
theorem run_stuck (sls : Serverless) (zipFiles : String → String) (evs : List BEvent)
    (st : BuildState) (r p : Nat) (h : Stuck st r p) :
    Stuck (BuildState.run sls zipFiles st evs) r p ∧
    (BuildState.run sls zipFiles st evs).compiled = st.compiled ∧
    (BuildState.run sls zipFiles st evs).queue.trace = st.queue.trace := by
  induction evs generalizing st with
  | nil => exact ⟨h, rfl, rfl⟩
  | cons ev t ih =>
    obtain ⟨h1, h2, h3⟩ := step_stuck sls zipFiles st ev r p h
    obtain ⟨i1, i2, i3⟩ := ih (st.step sls zipFiles ev) h1
    exact ⟨i1, i2.trans h2, i3.trans h3⟩

theorem mapGet_mapSet (m : List (String × Nat)) (k : String) (v : Nat) (c : String) :
    mapGet (mapSet m k v) c = if c = k then some v else mapGet m c := by
  induction m with
  | nil =>
    by_cases h : c = k
    · simp [mapSet, mapGet, h]
    · have h2 : ¬ k = c := fun e => h e.symm
      simp [mapSet, mapGet, h, h2]
  | cons hd tl ih =>
    obtain ⟨k0, w⟩ := hd
    by_cases h0 : k0 = k
    · subst h0
      by_cases h : c = k0
      · subst h; simp [mapSet, mapGet]
      · have h2 : ¬ k0 = c := fun e => h e.symm
        simp [mapSet, mapGet, h, h2]
    · by_cases h : c = k
      · subst h
        simp [mapSet, mapGet, h0, ih]
      · by_cases h4 : k0 = c
        · simp [mapSet, mapGet, h0, h, h4]
        · simp [mapSet, mapGet, h0, h, h4, ih]

theorem buildLoop_registryInv (l : List String) (st : BuildState) (r : Nat)
    (h : RegistryInv st) : RegistryInv (buildLoop st r l) := by
  induction l generalizing st with
  | nil => exact h
  | cons srcPath rest ih =>
    simp only [buildLoop]
    split
    · split
      · exact h
      · rename_i hget
        obtain ⟨hnd, hreg⟩ := h
        have hnot : srcPath ∉ st.submitted := fun hm => hreg srcPath hm hget
        refine ⟨?_, ?_⟩
        · simp only [advanceQueue]
          rw [List.nodup_append]
          refine ⟨hnd, by simp, ?_⟩
          intro a ha hb
          simp only [List.mem_singleton] at hb
          subst hb
          exact hnot ha
        · intro p hp
          simp only [advanceQueue, List.mem_append, List.mem_singleton] at hp ⊢
          rw [mapGet_mapSet]
          by_cases hps : p = srcPath
          · simp [hps]
          · rw [if_neg hps]
            rcases hp with hp | hp
            · exact hreg p hp
            · exact absurd hp hps
    · exact ih _ h

theorem step_registryInv (sls : Serverless) (zipFiles : String → String) (st : BuildState)
    (ev : BEvent) (h : RegistryInv st) : RegistryInv (st.step sls zipFiles ev) := by
  cases ev with
  | clear =>
    simp only [BuildState.step]
    exact ⟨List.nodup_nil, fun p hp => absurd hp (List.not_mem_nil p)⟩
  | build functionName incl =>
    cases incl with
    | none => exact h
    | some inc =>
      simp only [BuildState.step]
      exact buildLoop_registryInv _ _ _ h
  | taskSettles c ok =>
    simp only [BuildState.step]
    split
    · split
      · split
        · exact h
        · exact h
      · exact h
    · exact h
  | queueResume c => exact h
  | requestResume r =>
    simp only [BuildState.step]
    split
    · split
      · split
        · exact buildLoop_registryInv _ _ _ h
        · exact h
      · split
        · exact buildLoop_registryInv _ _ _ h
        · exact h
        · exact h
      · exact h
    · exact h

/-- Within one packaging run no source path is handed to the queue twice. -/
theorem submitted_nodup (sls : Serverless) (zipFiles : String → String)
    (evs : List BEvent) :
    (BuildState.run sls zipFiles BuildState.init evs).submitted.Nodup := by
  have hrun : ∀ (l : List BEvent) (st : BuildState), RegistryInv st →
      RegistryInv (BuildState.run sls zipFiles st l) := by
    intro l
    induction l with
    | nil => intro st h; exact h
    | cons ev t ih =>
      intro st h
      exact ih _ (step_registryInv sls zipFiles st ev h)
  exact (hrun evs BuildState.init
    ⟨List.nodup_nil, fun p hp => absurd hp (List.not_mem_nil p)⟩).1

/-- C8 on the code: function `a` includes `x.csproj` and `shared.csproj`,
function `b` includes `y.csproj` and `shared.csproj`. Both first builds run
and the queue drains; `a` then registers and submits `shared.csproj` once and
returns, `b` finds it registered and waits. The compiler has not been invoked
on `shared.csproj` then and is not by any later step, the promise of the
path stays unresolved and `b` stays suspended; the two functions hold
different artifacts. On a queue that has not been used, three requests for
one path compile it once and all end with the artifact of that build. -/
theorem dedup_build_never_invoked (evs : List BEvent) :
    (BuildState.run plainService sampleZip BuildState.init sharedAfterOwnBuilds).submitted =
      ["x.csproj", "y.csproj", "shared.csproj"] ∧
    (BuildState.run plainService sampleZip BuildState.init
      (sharedAfterOwnBuilds ++ evs)).compiled = ["x.csproj", "y.csproj"] ∧
    (BuildState.run plainService sampleZip BuildState.init
      (sharedAfterOwnBuilds ++ evs)).promises[2]? = some none ∧
    (∃ req, (BuildState.run plainService sampleZip BuildState.init
        (sharedAfterOwnBuilds ++ evs)).requests[1]? = some req ∧
      req.status = RequestStatus.awaitingBuild 2) ∧
    (BuildState.run plainService sampleZip BuildState.init sharedAfterOwnBuilds).requests.map
      (fun req => (req.functionName, req.status, req.artifact)) =
      [("a", RequestStatus.returned, some ".serverless/a.zip"),
       ("b", RequestStatus.awaitingBuild 2, some ".serverless/b.zip")] ∧
    (BuildState.run plainService sampleZip BuildState.init sharedOnFreshQueue).compiled =
      ["shared.csproj"] ∧
    (BuildState.run plainService sampleZip BuildState.init sharedOnFreshQueue).requests.map
      (fun req => (req.functionName, req.status, req.artifact)) =
      [("a", RequestStatus.returned, some ".serverless/a.zip"),
       ("b", RequestStatus.returned, some ".serverless/a.zip"),
       ("c", RequestStatus.returned, some ".serverless/a.zip")] := by
  have hstuck : Stuck (BuildState.run plainService sampleZip BuildState.init
      sharedAfterOwnBuilds) 1 2 := by
    refine ⟨?_, by decide, ?_⟩
    · apply noDrainer_of_calls
      · decide
      · intro x hx e
        have hcalls : (BuildState.run plainService sampleZip BuildState.init
            sharedAfterOwnBuilds).queue.calls =
            [CallState.returned, CallState.returned, CallState.returned] := by decide
        rw [hcalls] at hx
        simp only [List.mem_cons, List.mem_singleton, List.not_mem_nil, or_false] at hx
        rcases hx with hx | hx | hx <;> subst hx <;> intro hh <;> cases hh
    · exact ⟨{ functionName := "b", srcPath := "shared.csproj", remaining := [],
               completionResolver := some 1, artifact := some ".serverless/b.zip",
               status := RequestStatus.awaitingBuild 2 }, by decide, rfl⟩
  obtain ⟨⟨_, hp, hreq⟩, hcomp, _⟩ := run_stuck plainService sampleZip evs _ 1 2 hstuck
  refine ⟨by decide, ?_, ?_, ?_, by decide, by decide, by decide⟩
  · rw [brun_append, hcomp]; decide
  · rw [brun_append]; exact hp
  · rw [brun_append]; exact hreq

/-- C9 on the code: functions `a` and `b` both include `shared.csproj` and its
compilation fails. The invocation for `a`, which started the build, throws;
the invocation for `b`, which found the path registered, stays suspended on a
promise that stays unresolved, whatever steps follow. -/
theorem build_failure_not_delivered (evs : List BEvent) :
    (BuildState.run plainService sampleZip BuildState.init sharedBuildFails).requests.map
      (fun req => (req.functionName, req.status)) =
      [("a", RequestStatus.rejected), ("b", RequestStatus.awaitingBuild 0)] ∧
    (BuildState.run plainService sampleZip BuildState.init sharedBuildFails).queue.trace =
      [TraceEvent.started 0, TraceEvent.finished 0 false] ∧
    (BuildState.run plainService sampleZip BuildState.init
      (sharedBuildFails ++ evs)).promises[0]? = some none ∧
    (∃ req, (BuildState.run plainService sampleZip BuildState.init
        (sharedBuildFails ++ evs)).requests[1]? = some req ∧
      req.status = RequestStatus.awaitingBuild 0) := by
  have hstuck : Stuck (BuildState.run plainService sampleZip BuildState.init
      sharedBuildFails) 1 0 := by
    refine ⟨?_, by decide, ?_⟩
    · apply noDrainer_of_calls
      · decide
      · intro x hx e
        have hcalls : (BuildState.run plainService sampleZip BuildState.init
            sharedBuildFails).queue.calls = [CallState.rejected] := by decide
        rw [hcalls] at hx
        simp only [List.mem_singleton] at hx
        subst hx; intro hh; cases hh
    · exact ⟨{ functionName := "b", srcPath := "shared.csproj", remaining := [],
               completionResolver := none, artifact := none,
               status := RequestStatus.awaitingBuild 0 }, by decide, rfl⟩
  obtain ⟨⟨_, hp, hreq⟩, _, _⟩ := run_stuck plainService sampleZip evs _ 1 0 hstuck
  refine ⟨by decide, by decide, ?_, ?_⟩
  · rw [brun_append]; exact hp
  · rw [brun_append]; exact hreq

end PackageService
